import Mathlib

/-
Verification of the a11y-toolbox extraction core: a shallow embedding of
the accessible-name resolver (both source variants), the XPath synthesizer,
the document statistics collector, the hierarchical selector fallback and
the extraction loop, with theorems settling the frozen claims.

Conventions of the embedding:
- the DOM is a finite tree of element and text nodes; an element node
  carries its tag (lowercase, as tagName.toLowerCase() renders it), its
  attribute list, its computed style and the computed styles of its
  ::before and ::after pseudo-elements.  A computed-style query that the
  engine fails is an Except.error value, mirroring a thrown exception.
- a node is addressed by a reversed child-index path into the document
  (head = index in the parent childNodes list); the parent of a node is
  the tail of its path.  The document node itself is the empty path.
- machine strings are Lean String values; JavaScript truthiness of a
  string is the test against the empty string.
- the mutually recursive resolver functions take a fuel argument; fuel
  exhaustion is the value none.  A JavaScript exception is an
  Except.error value where the source can throw.
-/

namespace A11y

/-- JavaScript whitespace as matched by the \s class in the source regexes
(restricted to the ASCII range used by the repository). -/
def isWsChar (c : Char) : Bool :=
  c = ' ' || c = '\t' || c = '\n' || c = '\r' || c = '\x0b' || c = '\x0c'

/-- One pass of replace(\s+ with a single space): collapses each maximal
whitespace run to one space.  The flag records whether the previous
character was part of a whitespace run. -/
def collapseWs : Bool → List Char → List Char
  | _, [] => []
  | prevWs, c :: rest =>
    if isWsChar c then
      if prevWs then collapseWs true rest
      else ' ' :: collapseWs true rest
    else c :: collapseWs false rest

/-- Drop trailing whitespace characters. -/
def dropTrailWs : List Char → List Char
  | [] => []
  | c :: rest =>
    let r := dropTrailWs rest
    if r = [] && isWsChar c then [] else c :: r

/-- JavaScript String.trim: drop leading and trailing whitespace. -/
def trimChars (l : List Char) : List Char :=
  dropTrailWs (l.dropWhile isWsChar)

/-- JavaScript value.trim() on strings. -/
def trimS (s : String) : String :=
  String.mk (trimChars s.data)

/-- normalizeText from both accessible-text variants:
empty or missing input gives the empty string, otherwise
text.replace(\s+ with one space).trim(). -/
def normalizeText (s : String) : String :=
  if s = "" then ""
  else String.mk (trimChars (collapseWs false s.data))

/-- JavaScript a || b on strings (empty string is falsy). -/
def jsOrS (a b : String) : String :=
  if a = "" then b else a

/-- Maximal non-whitespace runs of a string: the result of
value.trim().split(on whitespace runs) with empty pieces filtered out,
as used for IDREF parsing. -/
def wordsWs (s : String) : List String :=
  ((s.data.splitOnP (fun c => isWsChar c)).filter (fun w => w ≠ [])).map String.mk

/-- Order-preserving first-occurrence deduplication, mirroring
filter((id, index, arr) => arr.indexOf(id) === index). -/
def dedupFirst (l : List String) : List String :=
  (l.foldl (fun (acc : List String × List String) x =>
    if acc.2.contains x then acc else (acc.1 ++ [x], x :: acc.2)) ([], [])).1

/-- ASCII lowercase of a string, mirroring value.toLowerCase() on the
ASCII names the repository handles. -/
def toLowerStr (s : String) : String :=
  String.mk (s.data.map Char.toLower)

/-- Split a character list on one separator character (every separator
occurrence delimits, empty pieces kept), mirroring value.split(sep). -/
def splitOnCharL (sep : Char) : List Char → List (List Char)
  | [] => [[]]
  | c :: rest =>
    match splitOnCharL sep rest with
    | [] => [[c]]
    | w :: ws => if c = sep then [] :: w :: ws else (c :: w) :: ws

/-- value.split(sep) for a one-character separator. -/
def splitOnChar (sep : Char) (s : String) : List String :=
  (splitOnCharL sep s.data).map String.mk

/-- A normalized string: no leading whitespace, no trailing whitespace,
and no two consecutive whitespace characters. -/
def noDoubleWs : List Char → Bool
  | [] => true
  | [_] => true
  | a :: b :: rest => (!(isWsChar a && isWsChar b)) && noDoubleWs (b :: rest)

/-- Whether a string is whitespace-normalized in the sense of the spec:
no leading or trailing whitespace and no run of two or more consecutive
whitespace characters. -/
def isNormalizedStr (s : String) : Bool :=
  (match s.data.head? with | some c => !isWsChar c | none => true)
  && (match s.data.getLast? with | some c => !isWsChar c | none => true)
  && noDoubleWs s.data

/-- An attribute of a DOM element: name and value. -/
structure DAttr where
  name : String
  value : String
deriving DecidableEq, Repr

/-- The computed style of an element as queried through
window.getComputedStyle(element). -/
structure ElemStyle where
  display : String
  visibility : String
deriving DecidableEq, Repr

/-- The computed style of a ::before or ::after pseudo-element as queried
through window.getComputedStyle(element, pseudo): the content property
value and the display and visibility properties. -/
structure PseudoStyle where
  content : String
  display : String
  visibility : String
deriving DecidableEq, Repr

/-- A DOM node: an element (tag in lowercase, attributes, computed style,
computed ::before and ::after styles, child nodes) or a text node.  A
computed-style value of Except.error models the style query throwing. -/
inductive DNode where
  | elem (tag : String) (attrs : List DAttr)
      (style : Except String ElemStyle)
      (pbefore : Except String PseudoStyle)
      (pafter : Except String PseudoStyle)
      (children : List DNode)
  | text (s : String)

/-- The document: its list of child nodes (normally one html element). -/
structure Doc where
  childNodes : List DNode

/-- A reversed child-index path addressing a node: the head is the index
in the parent childNodes list and the tail is the path of the parent.
The empty path addresses the document node itself. -/
abbrev Path := List Nat

/-- Child nodes of an element node (empty for a text node). -/
def DNode.childNodes : DNode → List DNode
  | .elem _ _ _ _ _ cs => cs
  | .text _ => []

/-- Whether a node is an element node (nodeType 1). -/
def DNode.isElem : DNode → Bool
  | .elem _ _ _ _ _ _ => true
  | .text _ => false

/-- Tag name of a node (empty for a text node). -/
def DNode.tag : DNode → String
  | .elem t _ _ _ _ _ => t
  | .text _ => ""

/-- Attribute list of a node (empty for a text node). -/
def DNode.attrs : DNode → List DAttr
  | .elem _ as _ _ _ _ => as
  | .text _ => []

/-- Computed style of a node (a text node never reaches a style query;
give it an inert default). -/
def DNode.style : DNode → Except String ElemStyle
  | .elem _ _ st _ _ _ => st
  | .text _ => .ok ⟨"inline", "visible"⟩

/-- Computed ::before style of a node. -/
def DNode.pbefore : DNode → Except String PseudoStyle
  | .elem _ _ _ pb _ _ => pb
  | .text _ => .ok ⟨"none", "none", "visible"⟩

/-- Computed ::after style of a node. -/
def DNode.pafter : DNode → Except String PseudoStyle
  | .elem _ _ _ _ pa _ => pa
  | .text _ => .ok ⟨"none", "none", "visible"⟩

/-- element.getAttribute(name): the value of the first attribute with the
given name, or none when absent. -/
def DNode.getAttr (n : DNode) (name : String) : Option String :=
  (n.attrs.find? (fun a => a.name = name)).map (fun a => a.value)

/-- getAttribute with a null value read as the empty string (the common
JavaScript pattern getAttribute(name) with truthiness or || chains). -/
def DNode.getAttrD (n : DNode) (name : String) : String :=
  (n.getAttr name).getD ""

/-- Whether the element has an attribute with the given name, mirroring
element.hasAttribute(name). -/
def DNode.hasAttr (n : DNode) (name : String) : Bool :=
  (n.attrs.find? (fun a => a.name = name)).isSome

/-- element.classList as a token list: the whitespace-split tokens of the
class attribute. -/
def DNode.classList (n : DNode) : List String :=
  wordsWs (n.getAttrD "class")

/-- The node addressed by a reversed path, or none for the empty path
(the document node is not a DNode) and for invalid indices. -/
def nodeAt (d : Doc) : Path → Option DNode
  | [] => none
  | [i] => d.childNodes.get? i
  | i :: rp =>
    match nodeAt d rp with
    | some (.elem _ _ _ _ _ cs) => cs.get? i
    | _ => none

/-- The node addressed by a reversed path within a forest (the same
addressing as nodeAt, relative to a child list instead of the
document). -/
def nodeAtF (cs : List DNode) : Path → Option DNode
  | [] => none
  | [i] => cs.get? i
  | i :: rp =>
    match nodeAtF cs rp with
    | some (.elem _ _ _ _ _ cs') => cs'.get? i
    | _ => none

/-- Child-node list of the node addressed by a path; the empty path gives
the document child list. -/
def childNodesAt (d : Doc) (rp : Path) : List DNode :=
  match rp with
  | [] => d.childNodes
  | _ =>
    match nodeAt d rp with
    | some n => n.childNodes
    | none => []

-- textContent of a node: the concatenation of all descendant text.
mutual

/-- textContent of a node: the concatenation of all descendant text. -/
def textContentN : DNode → String
  | .text s => s
  | .elem _ _ _ _ _ cs => textContentL cs

def textContentL : List DNode → String
  | [] => ""
  | c :: rest => textContentN c ++ textContentL rest

end

-- Element paths of a subtree in document (preorder) order.
mutual

/-- Element paths of a subtree in document (preorder) order; the node at
the given path is included first when it is an element. -/
def elemPathsN : DNode → Path → List Path
  | .text _, _ => []
  | .elem _ _ _ _ _ cs, rp => rp :: elemPathsL cs rp 0

def elemPathsL : List DNode → Path → Nat → List Path
  | [], _, _ => []
  | c :: rest, rp, i => elemPathsN c (i :: rp) ++ elemPathsL rest rp (i + 1)

end

/-- All element paths of the document in document order, as traversed by
document.querySelectorAll with the universal selector. -/
def allElemPaths (d : Doc) : List Path :=
  elemPathsL d.childNodes [] 0

/-- textContent of the node addressed by a path (empty for the document
or an invalid path). -/
def textContentAt (d : Doc) (rp : Path) : String :=
  match nodeAt d rp with
  | some n => textContentN n
  | none => ""

/-- Engine capabilities that the source probes dynamically: whether the
attribute-selector id lookup document.querySelectorAll with an [id=...]
selector raises for a given id (the caught failure that makes the source
fall back to getElementById). -/
structure QEnv where
  idQueryFails : String → Bool

/-- document.querySelectorAll with an [id="value"] attribute selector
built through CSS.escape: all element paths whose id attribute equals the
value literally, in document order (CSS.escape makes the selector match
the literal id, per its contract). -/
def queryAllById (d : Doc) (idv : String) : List Path :=
  (allElemPaths d).filter (fun q =>
    match nodeAt d q with
    | some n => n.hasAttr "id" && n.getAttrD "id" = idv
    | none => false)

/-- document.getElementById: the first element in document order whose id
attribute equals the value. -/
def getElementById (d : Doc) (idv : String) : Option Path :=
  (queryAllById d idv).head?

-- First descendant element satisfying a predicate, in document order.
mutual

/-- First element satisfying the predicate in the subtree rooted at a
node, the node itself included, in document order. -/
def findPN (p : DNode → Bool) : DNode → Option DNode
  | .text _ => none
  | .elem t as st pb pa cs =>
    if p (.elem t as st pb pa cs) then some (.elem t as st pb pa cs)
    else findPL p cs

/-- First element satisfying the predicate in a forest, in document
order. -/
def findPL (p : DNode → Bool) : List DNode → Option DNode
  | [] => none
  | c :: rest =>
    match findPN p c with
    | some m => some m
    | none => findPL p rest

end

/-- element.querySelector with a simple per-element predicate: the first
matching descendant of the node, in document order (the node itself is
excluded, as querySelector searches descendants only). -/
def queryDesc (n : DNode) (p : DNode → Bool) : Option DNode :=
  findPL p n.childNodes

-- querySelector for the selector  semantics > annotation[encoding="text/plain"].
mutual

/-- Search a forest for the first annotation element with
encoding="text/plain" whose parent element has the given tag, mirroring
querySelector with the selector semantics > annotation[encoding="text/plain"]
scoped to descendants (ptag is the tag of the parent of the forest
nodes). -/
def findSemAnnL (ptag : String) : List DNode → Option DNode
  | [] => none
  | c :: rest =>
    match findSemAnnN ptag c with
    | some m => some m
    | none => findSemAnnL ptag rest

/-- Search a node and its subtree for the first matching annotation
element, given the tag of its parent. -/
def findSemAnnN (ptag : String) : DNode → Option DNode
  | .text _ => none
  | .elem t as st pb pa cs =>
    if ptag = "semantics" && t = "annotation"
        && (DNode.elem t as st pb pa cs).getAttrD "encoding" = "text/plain" then
      some (.elem t as st pb pa cs)
    else findSemAnnL t cs

end

-- textContent of a label clone with form controls removed.
mutual

/-- textContent of a forest after removing every input, select and
textarea element together with its subtree, mirroring the label clone
from which querySelectorAll(input, select, textarea) results are
removed. -/
def pruneControlsTextL : List DNode → String
  | [] => ""
  | c :: rest => pruneControlsTextN c ++ pruneControlsTextL rest

/-- textContent of a node after removing form controls (see
pruneControlsTextL). -/
def pruneControlsTextN : DNode → String
  | .text s => s
  | .elem t _ _ _ _ cs =>
    if t = "input" || t = "select" || t = "textarea" then ""
    else pruneControlsTextL cs

end

/-- Direct text content of a node: the concatenation of its text-node
children only, as the max-depth branch of computeChildAccessibleName
collects it. -/
def directTextChildren (n : DNode) : String :=
  (n.childNodes.map (fun c => match c with | .text s => s | _ => "")).foldl
    (fun a b => a ++ b) ""

/-- element.closest with the label selector: the nearest ancestor-or-self
element with tag label. -/
def closestLabel (d : Doc) : Path → Option DNode
  | [] => none
  | i :: rp =>
    match nodeAt d (i :: rp) with
    | some n => if n.tag = "label" then some n else closestLabel d rp
    | none => none

/-- getAssociatedLabel, identical in both accessible-text variants:
explicit label (first label element with for equal to the element id)
takes priority, then the implicit label (closest label ancestor, with
nested form-control content removed from the extracted text). -/
def getAssociatedLabel (d : Doc) (rp : Path) : String :=
  match nodeAt d rp with
  | none => ""
  | some n =>
    let idv := n.getAttrD "id"
    let explicitLabel : Option DNode :=
      if idv ≠ "" then
        (allElemPaths d).findSome? (fun q =>
          match nodeAt d q with
          | some m =>
            if m.tag = "label" && m.getAttrD "for" = idv then some m else none
          | none => none)
      else none
    match explicitLabel with
    | some lbl => trimS (textContentN lbl)
    | none =>
      -- element.closest, walking from the element itself through its ancestors
      match closestLabel d rp with
      | some lbl => trimS (pruneControlsTextL lbl.childNodes)
      | none => ""

/-- arialabelText, identical in both accessible-text variants:
normalizeText(element.getAttribute(aria-label) or empty). -/
def arialabelText (n : DNode) : String :=
  normalizeText (n.getAttrD "aria-label")

/-- Quote characters stripped from pseudo-element content values. -/
def isQuoteChar (c : Char) : Bool :=
  c = '"' || c = '\''

/-- content.replace of one leading and one trailing single or double
quote, mirroring the anchored regex replace in getPseudoElementContent. -/
def stripQuotes (s : String) : String :=
  let l₁ :=
    match s.data with
    | c :: rest => if isQuoteChar c then rest else s.data
    | [] => []
  let l₂ :=
    match l₁.getLast? with
    | some c => if isQuoteChar c then l₁.dropLast else l₁
    | none => l₁
  String.mk l₂

/-- The IDREF token list of an aria-labelledby attribute value, as parsed
by arialabelledbyText in both variants: trim, split on whitespace, drop
empties, first-occurrence dedup. -/
def albIdrefs (v : String) : List String :=
  dedupFirst (wordsWs v)

/-- The referencedElements accumulation loop of arialabelledbyText,
identical in both variants: each idref resolved to all elements with
that id, falling back to getElementById when the attribute-selector
query fails. -/
def albReferenced (d : Doc) (env : QEnv) (v : String) : List Path :=
  (albIdrefs v).foldl (fun acc idv =>
    if env.idQueryFails idv then
      match getElementById d idv with
      | some p => acc ++ [p]
      | none => acc
    else acc ++ queryAllById d idv) []

namespace ATv2

/-
Embedding of the second (more complete) accessible-text variant, the one
the spec section 4.5 follows: the file stored as src/unnamed/part_000.
Functions keep their source names.  The fuel argument bounds the call
depth; fuel exhaustion is none.  In this variant every engine error is
caught locally (shouldIgnoreElement, the id queries and the
pseudo-element queries each have their own try/catch), so the resolver
pipeline itself carries no exception value.
-/

/-- shouldIgnoreElement of the part_000 variant: aria-hidden true, role
presentation or none, or computed display none / visibility hidden; an
element with display contents is not ignored.  A failing style query is
caught and the element is not ignored. -/
def shouldIgnoreElement (d : Doc) (rp : Path) : Bool :=
  match nodeAt d rp with
  | none => false
  | some el =>
    if el.getAttr "aria-hidden" = some "true" then true
    else if el.getAttr "role" = some "presentation"
        || el.getAttr "role" = some "none" then true
    else
      match el.style with
      | .ok cs =>
        if cs.display = "none" then true
        else if cs.visibility = "hidden" then true
        else if cs.display = "contents" then false
        else false
      | .error _ => false

/-- getPseudoElementContent of the part_000 variant: the ::before and
::after content values, kept only when the content property is set, not
none and not an empty quoted string, and the pseudo-element is not
hidden via display none or visibility hidden; quotes are stripped.  A
failing ::before query aborts the whole try block; a failing ::after
query keeps the ::before result. -/
def getPseudoElementContent (n : DNode) : String × String :=
  match n.pbefore with
  | .error _ => ("", "")
  | .ok bs =>
    let beforeContent :=
      if bs.content ≠ "" && bs.content ≠ "none" && bs.content ≠ "\"\"" then
        if bs.display ≠ "none" && bs.visibility ≠ "hidden" then
          stripQuotes bs.content
        else ""
      else ""
    match n.pafter with
    | .error _ => (beforeContent, "")
    | .ok as =>
      let afterContent :=
        if as.content ≠ "" && as.content ≠ "none" && as.content ≠ "\"\"" then
          if as.display ≠ "none" && as.visibility ≠ "hidden" then
            stripQuotes as.content
          else ""
        else ""
      (beforeContent, afterContent)

mutual

/-- getAccessibleText of the part_000 variant.  A non-element input gives
the empty string; an ignored element gives the empty string; when not in
labelledby context and aria-labelledby is truthy, the normalized
labelledby result is returned even if empty; otherwise aria-label, then
nativeTextAlternative.  The surrounding try/catch of the source is
unreachable here because every engine error is caught locally by the
callees. -/
def getAccessibleText : Nat → Doc → QEnv → Path → Bool → Option String
  | 0, _, _, _, _ => none
  | fuel + 1, d, env, rp, inLabelledByContext =>
    match nodeAt d rp with
    | some el =>
      if !el.isElem then some ""
      else if shouldIgnoreElement d rp then some ""
      else if !inLabelledByContext && el.getAttrD "aria-labelledby" ≠ "" then
        (arialabelledbyText fuel d env rp inLabelledByContext).map normalizeText
      else
        let a := normalizeText (arialabelText el)
        if a ≠ "" then some a
        else (nativeTextAlternative fuel d env rp).map normalizeText
    | none => some ""

termination_by structural n => n

/-- arialabelledbyText, textually identical in both variants (embedded
here against this variant getAccessibleText): parse the IDREF list
(trim, split on whitespace, drop empties, first-occurrence dedup),
resolve each id to all elements with that id (falling back to
getElementById when the attribute-selector query fails), resolve each
referenced element with the labelledby flag set, keep the non-empty
trimmed results and join them with single spaces, whitespace
collapsed. -/
def arialabelledbyText : Nat → Doc → QEnv → Path → Bool → Option String
  | 0, _, _, _, _ => none
  | fuel + 1, d, env, rp, inLabelledByContext =>
    match nodeAt d rp with
    | none => some ""
    | some el =>
      if inLabelledByContext || el.getAttrD "aria-labelledby" = "" then some ""
      else
        let idrefs := albIdrefs (el.getAttrD "aria-labelledby")
        if idrefs = [] then some ""
        else
          let referencedElements :=
            albReferenced d env (el.getAttrD "aria-labelledby")
          if referencedElements = [] then some ""
          else
            match albRefs fuel d env referencedElements with
            | none => none
            | some texts =>
              let accessibleNames := texts.filter (fun t => t ≠ "")
              if accessibleNames ≠ [] then
                some (String.mk (trimChars (collapseWs false
                  (String.intercalate " " accessibleNames).data)))
              else some ""

termination_by structural n => n

/-- The referencedElements.map loop of arialabelledbyText: each
referenced element resolved with the labelledby flag set and trimmed
(the per-element catch is unreachable: getAccessibleText never
throws). -/
def albRefs : Nat → Doc → QEnv → List Path → Option (List String)
  | 0, _, _, _ => none
  | fuel + 1, d, env, refs =>
    match refs with
    | [] => some []
    | q :: rest =>
      match getAccessibleText fuel d env q true with
      | none => none
      | some t =>
        match albRefs fuel d env rest with
        | none => none
        | some ts => some (trimS t :: ts)

termination_by structural n => n

/-- getRoleSpecificName of the part_000 variant: role-specific
computation for button, link, textbox, searchbox, slider, spinbutton,
progressbar, img, heading, group and region. -/
def getRoleSpecificName : Nat → Doc → QEnv → Path → Option String
  | 0, _, _, _ => none
  | fuel + 1, d, env, rp =>
    match nodeAt d rp with
    | none => some ""
    | some el =>
      let role := el.getAttrD "role"
      if role = "" then some ""
      else
        match toLowerStr role with
        | "button" => computeChildAccessibleName fuel d env rp 0
        | "link" =>
          (computeChildAccessibleName fuel d env rp 0).map (fun linkName =>
            jsOrS linkName (jsOrS (el.getAttrD "title") ""))
        | "textbox" | "searchbox" =>
          some (jsOrS (el.getAttrD "aria-placeholder")
            (jsOrS (el.getAttrD "placeholder") ""))
        | "slider" | "spinbutton" | "progressbar" =>
          some (jsOrS (el.getAttrD "aria-valuetext")
            (jsOrS (el.getAttrD "aria-valuenow") ""))
        | "img" => some (jsOrS (el.getAttrD "alt") "")
        | "heading" => computeChildAccessibleName fuel d env rp 0
        | "group" | "region" => computeChildAccessibleName fuel d env rp 0
        | _ => some ""

termination_by structural n => n

/-- nativeTextAlternative of the part_000 variant: role-specific name
first, then the per-tag HTML-AAM style mapping, then the generic branch
(contenteditable title, child content with pseudo-element content,
pseudo-element content alone, title). -/
def nativeTextAlternative : Nat → Doc → QEnv → Path → Option String
  | 0, _, _, _ => none
  | fuel + 1, d, env, rp =>
    match nodeAt d rp with
    | none => some ""
    | some el =>
      if !el.isElem then some ""
      else if shouldIgnoreElement d rp then some ""
      else
        match getRoleSpecificName fuel d env rp with
        | none => none
        | some roleSpecificName =>
          if roleSpecificName ≠ "" then some roleSpecificName
          else
            match el.tag with
            | "img" =>
              match el.getAttr "alt" with
              | some altText => some altText
              | none =>
                let titleText := el.getAttrD "title"
                if titleText ≠ "" then some titleText else some ""
            | "input" =>
              let inputType := jsOrS (toLowerStr (el.getAttrD "type")) "text"
              match inputType with
              | "submit" | "reset" | "button" =>
                some (jsOrS (el.getAttrD "value")
                  (if inputType = "submit" then "Submit"
                   else if inputType = "reset" then "Reset" else ""))
              | "image" =>
                some (jsOrS (el.getAttrD "alt")
                  (jsOrS (el.getAttrD "value") "Submit"))
              | "file" => some (jsOrS (el.getAttrD "value") "Choose file")
              | "range" =>
                some (jsOrS (el.getAttrD "aria-valuetext")
                  (jsOrS (el.getAttrD "aria-valuenow")
                    (jsOrS (el.getAttrD "value") "")))
              | _ =>
                let associatedLabel := getAssociatedLabel d rp
                if associatedLabel ≠ "" then some associatedLabel
                else
                  let ariaPlaceholder := el.getAttrD "aria-placeholder"
                  if ariaPlaceholder ≠ "" then some ariaPlaceholder
                  else some (jsOrS (el.getAttrD "placeholder")
                    (jsOrS (el.getAttrD "title") ""))
            | "button" =>
              (computeChildAccessibleName fuel d env rp 0).map (fun b =>
                jsOrS b (jsOrS (el.getAttrD "title") ""))
            | "select" =>
              let selectedOption :=
                match queryDesc el (fun c =>
                    c.isElem && c.tag = "option" && c.hasAttr "selected") with
                | some o => some o
                | none => queryDesc el (fun c => c.isElem && c.tag = "option")
              match selectedOption with
              | some o =>
                some (jsOrS (o.getAttrD "label") (jsOrS (textContentN o) ""))
              | none => some (jsOrS (getAssociatedLabel d rp) "")
            | "textarea" =>
              let textareaLabel := getAssociatedLabel d rp
              if textareaLabel ≠ "" then some textareaLabel
              else
                let textareaAriaPlaceholder := el.getAttrD "aria-placeholder"
                if textareaAriaPlaceholder ≠ "" then some textareaAriaPlaceholder
                else some (jsOrS (el.getAttrD "placeholder")
                  (jsOrS (el.getAttrD "title") ""))
            | "a" =>
              (computeChildAccessibleName fuel d env rp 0).map (fun linkName =>
                if trimS linkName ≠ "" then linkName
                else jsOrS (el.getAttrD "title") "")
            | "fieldset" =>
              match queryDesc el (fun c => c.isElem && c.tag = "legend") with
              | some legend => some (trimS (textContentN legend))
              | none => some ""
            | "figure" =>
              match queryDesc el (fun c => c.isElem && c.tag = "figcaption") with
              | some figcaption => some (trimS (textContentN figcaption))
              | none => some ""
            | "table" =>
              match queryDesc el (fun c => c.isElem && c.tag = "caption") with
              | some caption => some (trimS (textContentN caption))
              | none => some (jsOrS (el.getAttrD "summary") "")
            | "iframe" => some (jsOrS (el.getAttrD "title") "")
            | "object" | "embed" =>
              let objectTitle := el.getAttrD "title"
              if objectTitle ≠ "" then some objectTitle else some ""
            | "audio" | "video" =>
              let mediaTitle := el.getAttrD "title"
              if mediaTitle ≠ "" then some mediaTitle else some ""
            | "canvas" =>
              let canvasTitle := el.getAttrD "title"
              if canvasTitle ≠ "" then some canvasTitle
              else some (trimS (textContentN el))
            | "svg" =>
              match queryDesc el (fun c => c.isElem && c.tag = "title") with
              | some svgTitle => some (trimS (textContentN svgTitle))
              | none => some (jsOrS (el.getAttrD "title") "")
            | "math" =>
              match findSemAnnL el.tag el.childNodes with
              | some ann =>
                if trimS (textContentN ann) ≠ "" then
                  some (trimS (textContentN ann))
                else some (jsOrS (el.getAttrD "alttext")
                  (jsOrS (el.getAttrD "title") ""))
              | none =>
                some (jsOrS (el.getAttrD "alttext")
                  (jsOrS (el.getAttrD "title") ""))
            | _ =>
              if el.hasAttr "contenteditable"
                  && el.getAttr "contenteditable" ≠ some "false" then
                some (jsOrS (el.getAttrD "title") "")
              else
                match computeChildAccessibleName fuel d env rp 0 with
                | none => none
                | some childAccessibleName =>
                  if trimS childAccessibleName ≠ "" then
                    let pc := getPseudoElementContent el
                    some ((if pc.1 ≠ "" then pc.1 else "")
                      ++ childAccessibleName
                      ++ (if pc.2 ≠ "" then pc.2 else ""))
                  else
                    let pc := getPseudoElementContent el
                    let combinedContent :=
                      (if pc.1 ≠ "" then pc.1 else "")
                        ++ (if pc.2 ≠ "" then pc.2 else "")
                    if trimS combinedContent ≠ "" then some combinedContent
                    else some (jsOrS (el.getAttrD "title") "")

termination_by structural n => n

/-- computeChildAccessibleName of the part_000 variant: depth above 2
returns the empty string, otherwise the child-node walk with the final
whitespace collapse and trim. -/
def computeChildAccessibleName : Nat → Doc → QEnv → Path → Nat → Option String
  | 0, _, _, _, _ => none
  | fuel + 1, d, env, rp, depth =>
    if depth > 2 then some ""
    else
      match ccanChildren fuel d env rp depth
          (List.range (childNodesAt d rp).length) with
      | none => none
      | some accessibleName =>
        some (String.mk (trimChars (collapseWs false accessibleName.data)))

termination_by structural n => n

/-- The contribution of one child node inside the child-node loop of
computeChildAccessibleName (part_000 variant): ignored children are
skipped; img, qualifying input and svg children contribute their
accessible name (labelledby flag set) followed by a space when
non-empty; other element children contribute their aria-label, else
their accessible name when they declare aria-labelledby, else a
recursive walk below depth 2, else their direct text; text children
contribute their text. -/
def ccanPiece : Nat → Doc → QEnv → Path → Nat → Nat → DNode → Option String
  | 0, _, _, _, _, _, _ => none
  | fuel + 1, d, env, rp, depth, j, child =>
    if child.isElem then
      if shouldIgnoreElement d (j :: rp) then some ""
      else
        match child.tag with
        | "img" =>
          (getAccessibleText fuel d env (j :: rp) true).map (fun imgName =>
            if imgName ≠ "" then imgName ++ " " else "")
        | "input" =>
          let inputType := jsOrS (toLowerStr (child.getAttrD "type")) "text"
          if inputType = "submit" || inputType = "reset"
              || inputType = "button" || inputType = "image" then
            (getAccessibleText fuel d env (j :: rp) true).map (fun inputName =>
              if inputName ≠ "" then inputName ++ " " else "")
          else some ""
        | "svg" =>
          (getAccessibleText fuel d env (j :: rp) true).map (fun svgName =>
            if svgName ≠ "" then svgName ++ " " else "")
        | _ =>
          if child.getAttrD "aria-label" ≠ "" then
            some (child.getAttrD "aria-label" ++ " ")
          else if child.getAttrD "aria-labelledby" ≠ "" then
            (getAccessibleText fuel d env (j :: rp) true).map (fun childName =>
              if childName ≠ "" then childName ++ " " else "")
          else if depth < 2 then
            computeChildAccessibleName fuel d env (j :: rp) (depth + 1)
          else some (directTextChildren child)
    else
      some (match child with | .text s => s | _ => "")

termination_by structural n => n

/-- The child-node loop of computeChildAccessibleName (part_000
variant): the concatenation of the per-child contributions. -/
def ccanChildren : Nat → Doc → QEnv → Path → Nat → List Nat → Option String
  | 0, _, _, _, _, _ => none
  | fuel + 1, d, env, rp, depth, idxs =>
    match idxs with
    | [] => some ""
    | j :: rest =>
      match (childNodesAt d rp).get? j with
      | none => ccanChildren fuel d env rp depth rest
      | some child =>
        match ccanPiece fuel d env rp depth j child with
        | none => none
        | some pc =>
          match ccanChildren fuel d env rp depth rest with
          | none => none
          | some acc => some (pc ++ acc)

termination_by structural n => n

end

end ATv2

namespace ATv1

/-
Embedding of the first accessible-text variant, the file
src/src/utils/common/accessible-text.js.  Functions keep their source
names.  This variant differs from part_000: shouldIgnoreElement has no
try/catch around the style query (a style-query failure propagates up to
the catch of getAccessibleText) and never ignores display none or
visibility hidden; the labelledby step falls through to aria-label when
its normalized result is empty; getPseudoElementContent has no
display/visibility checks on the pseudo-elements; several per-tag chains
differ (img filename fallback, select text-before-label, iframe name,
object type, media track labels, canvas text-before-title, svg desc,
math without the annotation lookup, generic branch without
contenteditable handling and without the child-walk).  An Except.error
value models a propagating exception. -/

/-- shouldIgnoreElement of the accessible-text.js variant: aria-hidden
true or role presentation or none; the style query is consulted (and its
failure propagates) but neither display none nor visibility hidden makes
the element ignored. -/
def shouldIgnoreElement (d : Doc) (rp : Path) : Except String Bool :=
  match nodeAt d rp with
  | none => .ok false
  | some el =>
    if el.getAttr "aria-hidden" = some "true" then .ok true
    else if el.getAttr "role" = some "presentation"
        || el.getAttr "role" = some "none" then .ok true
    else
      match el.style with
      | .error e => .error e
      | .ok computedStyle =>
        if computedStyle.display = "contents" then .ok false
        else .ok false

/-- getPseudoElementContent of the accessible-text.js variant: like the
part_000 one but without the display/visibility checks on the
pseudo-elements. -/
def getPseudoElementContent (n : DNode) : String × String :=
  match n.pbefore with
  | .error _ => ("", "")
  | .ok bs =>
    let beforeContent :=
      if bs.content ≠ "" && bs.content ≠ "none" && bs.content ≠ "\"\"" then
        stripQuotes bs.content
      else ""
    match n.pafter with
    | .error _ => (beforeContent, "")
    | .ok as =>
      let afterContent :=
        if as.content ≠ "" && as.content ≠ "none" && as.content ≠ "\"\"" then
          stripQuotes as.content
        else ""
      (beforeContent, afterContent)

mutual

/-- getAccessibleText of the accessible-text.js variant: ignore check,
then the normalized labelledby result kept only when non-empty (an empty
result falls through), then aria-label, then nativeTextAlternative; any
exception from the body is caught and the result degrades to
normalizeText(textContent or title). -/
def getAccessibleText : Nat → Doc → QEnv → Path → Bool → Option String
  | 0, _, _, _, _ => none
  | fuel + 1, d, env, rp, inLabelledByContext =>
    match nodeAt d rp with
    | none => some ""
    | some el =>
      if !el.isElem then some ""
      else
        let fallback :=
          normalizeText (jsOrS (textContentN el) (jsOrS (el.getAttrD "title") ""))
        match shouldIgnoreElement d rp with
        | .error _ => some fallback
        | .ok true => some ""
        | .ok false =>
          match arialabelledbyText fuel d env rp inLabelledByContext with
          | none => none
          | some albr =>
            let accessibleText := normalizeText albr
            if accessibleText ≠ "" then some accessibleText
            else
              let accessibleText₂ := normalizeText (arialabelText el)
              if accessibleText₂ ≠ "" then some accessibleText₂
              else
                match nativeTextAlternative fuel d env rp with
                | none => none
                | some (.error _) => some fallback
                | some (.ok nt) => some (normalizeText nt)

termination_by structural n => n

/-- arialabelledbyText of the accessible-text.js variant (textually
identical to the part_000 one; it recurses into this variant
getAccessibleText). -/
def arialabelledbyText : Nat → Doc → QEnv → Path → Bool → Option String
  | 0, _, _, _, _ => none
  | fuel + 1, d, env, rp, inLabelledByContext =>
    match nodeAt d rp with
    | none => some ""
    | some el =>
      if inLabelledByContext || el.getAttrD "aria-labelledby" = "" then some ""
      else
        let idrefs := albIdrefs (el.getAttrD "aria-labelledby")
        if idrefs = [] then some ""
        else
          let referencedElements :=
            albReferenced d env (el.getAttrD "aria-labelledby")
          if referencedElements = [] then some ""
          else
            match albRefs fuel d env referencedElements with
            | none => none
            | some texts =>
              let accessibleNames := texts.filter (fun t => t ≠ "")
              if accessibleNames ≠ [] then
                some (String.mk (trimChars (collapseWs false
                  (String.intercalate " " accessibleNames).data)))
              else some ""

termination_by structural n => n

/-- The referencedElements.map loop of the accessible-text.js
arialabelledbyText (the per-element catch is unreachable because
getAccessibleText catches internally). -/
def albRefs : Nat → Doc → QEnv → List Path → Option (List String)
  | 0, _, _, _ => none
  | fuel + 1, d, env, refs =>
    match refs with
    | [] => some []
    | q :: rest =>
      match getAccessibleText fuel d env q true with
      | none => none
      | some t =>
        match albRefs fuel d env rest with
        | none => none
        | some ts => some (trimS t :: ts)

termination_by structural n => n

/-- getRoleSpecificName of the accessible-text.js variant (textually
identical switch to the part_000 one; the child-content computation can
propagate an exception). -/
def getRoleSpecificName : Nat → Doc → QEnv → Path → Option (Except String String)
  | 0, _, _, _ => none
  | fuel + 1, d, env, rp =>
    match nodeAt d rp with
    | none => some (.ok "")
    | some el =>
      let role := el.getAttrD "role"
      if role = "" then some (.ok "")
      else
        match toLowerStr role with
        | "button" => computeChildAccessibleName fuel d env rp 0
        | "link" =>
          (computeChildAccessibleName fuel d env rp 0).map (fun r =>
            r.map (fun linkName => jsOrS linkName (jsOrS (el.getAttrD "title") "")))
        | "textbox" | "searchbox" =>
          some (.ok (jsOrS (el.getAttrD "aria-placeholder")
            (jsOrS (el.getAttrD "placeholder") "")))
        | "slider" | "spinbutton" | "progressbar" =>
          some (.ok (jsOrS (el.getAttrD "aria-valuetext")
            (jsOrS (el.getAttrD "aria-valuenow") "")))
        | "img" => some (.ok (jsOrS (el.getAttrD "alt") ""))
        | "heading" => computeChildAccessibleName fuel d env rp 0
        | "group" | "region" => computeChildAccessibleName fuel d env rp 0
        | _ => some (.ok "")

/-- nativeTextAlternative of the accessible-text.js variant. -/
def nativeTextAlternative : Nat → Doc → QEnv → Path → Option (Except String String)
  | 0, _, _, _ => none
  | fuel + 1, d, env, rp =>
    match nodeAt d rp with
    | none => some (.ok "")
    | some el =>
      if !el.isElem then some (.ok "")
      else
        match shouldIgnoreElement d rp with
        | .error e => some (.error e)
        | .ok true => some (.ok "")
        | .ok false =>
          match getRoleSpecificName fuel d env rp with
          | none => none
          | some (.error e) => some (.error e)
          | some (.ok roleSpecificName) =>
            if roleSpecificName ≠ "" then some (.ok roleSpecificName)
            else
              match el.tag with
              | "img" =>
                match el.getAttr "alt" with
                | some altText => some (.ok altText)
                | none =>
                  let titleText := el.getAttrD "title"
                  if titleText ≠ "" then some (.ok titleText)
                  else
                    let src := el.getAttrD "src"
                    if src ≠ "" then
                      let filename :=
                        ((splitOnChar '?' ((splitOnChar '/' src).getLastD "")).headD "")
                      some (.ok (jsOrS filename ""))
                    else some (.ok "")
              | "input" =>
                let inputType := jsOrS (toLowerStr (el.getAttrD "type")) "text"
                match inputType with
                | "submit" | "reset" | "button" =>
                  some (.ok (jsOrS (el.getAttrD "value")
                    (if inputType = "submit" then "Submit"
                     else if inputType = "reset" then "Reset" else "")))
                | "image" =>
                  some (.ok (jsOrS (el.getAttrD "alt")
                    (jsOrS (el.getAttrD "value") "Submit")))
                | "file" => some (.ok (jsOrS (el.getAttrD "value") "Choose file"))
                | "range" =>
                  some (.ok (jsOrS (el.getAttrD "aria-valuetext")
                    (jsOrS (el.getAttrD "aria-valuenow")
                      (jsOrS (el.getAttrD "value") ""))))
                | _ =>
                  let associatedLabel := getAssociatedLabel d rp
                  if associatedLabel ≠ "" then some (.ok associatedLabel)
                  else
                    let ariaPlaceholder := el.getAttrD "aria-placeholder"
                    if ariaPlaceholder ≠ "" then some (.ok ariaPlaceholder)
                    else some (.ok (jsOrS (el.getAttrD "placeholder")
                      (jsOrS (el.getAttrD "title") "")))
              | "button" =>
                (computeChildAccessibleName fuel d env rp 0).map (fun r =>
                  r.map (fun b => jsOrS b (jsOrS (el.getAttrD "title") "")))
              | "select" =>
                let selectedOption :=
                  match queryDesc el (fun c =>
                      c.isElem && c.tag = "option" && c.hasAttr "selected") with
                  | some o => some o
                  | none => queryDesc el (fun c => c.isElem && c.tag = "option")
                match selectedOption with
                | some o =>
                  some (.ok (jsOrS (textContentN o) (jsOrS (o.getAttrD "label") "")))
                | none => some (.ok (jsOrS (getAssociatedLabel d rp) ""))
              | "textarea" =>
                let textareaLabel := getAssociatedLabel d rp
                if textareaLabel ≠ "" then some (.ok textareaLabel)
                else
                  let textareaAriaPlaceholder := el.getAttrD "aria-placeholder"
                  if textareaAriaPlaceholder ≠ "" then
                    some (.ok textareaAriaPlaceholder)
                  else some (.ok (jsOrS (el.getAttrD "placeholder")
                    (jsOrS (el.getAttrD "title") "")))
              | "a" =>
                (computeChildAccessibleName fuel d env rp 0).map (fun r =>
                  r.map (fun linkName =>
                    if trimS linkName ≠ "" then linkName
                    else jsOrS (el.getAttrD "title") ""))
              | "fieldset" =>
                match queryDesc el (fun c => c.isElem && c.tag = "legend") with
                | some legend => some (.ok (trimS (textContentN legend)))
                | none => some (.ok "")
              | "figure" =>
                match queryDesc el (fun c => c.isElem && c.tag = "figcaption") with
                | some figcaption => some (.ok (trimS (textContentN figcaption)))
                | none => some (.ok "")
              | "table" =>
                match queryDesc el (fun c => c.isElem && c.tag = "caption") with
                | some caption => some (.ok (trimS (textContentN caption)))
                | none => some (.ok (jsOrS (el.getAttrD "summary") ""))
              | "iframe" =>
                some (.ok (jsOrS (el.getAttrD "title")
                  (jsOrS (el.getAttrD "name") "")))
              | "object" | "embed" =>
                let objectTitle := el.getAttrD "title"
                if objectTitle ≠ "" then some (.ok objectTitle)
                else
                  let objectType := el.getAttrD "type"
                  if objectType ≠ "" then some (.ok (objectType ++ " object"))
                  else some (.ok "")
              | "audio" | "video" =>
                let mediaTitle := el.getAttrD "title"
                if mediaTitle ≠ "" then some (.ok mediaTitle)
                else
                  match queryDesc el (fun c => c.isElem && c.tag = "track"
                      && (c.getAttrD "kind" = "captions"
                          || c.getAttrD "kind" = "subtitles")) with
                  | some track => some (.ok (jsOrS (track.getAttrD "label") ""))
                  | none => some (.ok "")
              | "canvas" =>
                let canvasText := trimS (textContentN el)
                if canvasText ≠ "" then some (.ok canvasText)
                else some (.ok (jsOrS (el.getAttrD "title") ""))
              | "svg" =>
                match queryDesc el (fun c => c.isElem && c.tag = "title") with
                | some svgTitle => some (.ok (trimS (textContentN svgTitle)))
                | none =>
                  match queryDesc el (fun c => c.isElem && c.tag = "desc") with
                  | some svgDesc => some (.ok (trimS (textContentN svgDesc)))
                  | none => some (.ok (jsOrS (el.getAttrD "title") ""))
              | "math" =>
                some (.ok (jsOrS (el.getAttrD "alttext")
                  (jsOrS (el.getAttrD "title") "")))
              | _ =>
                let pseudoContent := getPseudoElementContent el
                let tc := textContentN el
                let combinedContent :=
                  (if pseudoContent.1 ≠ "" then pseudoContent.1 else "")
                    ++ (if trimS tc ≠ "" then tc else "")
                    ++ (if pseudoContent.2 ≠ "" then pseudoContent.2 else "")
                if trimS combinedContent ≠ "" then some (.ok combinedContent)
                else some (.ok (jsOrS (el.getAttrD "title") ""))

/-- computeChildAccessibleName of the accessible-text.js variant: depth
above 2 returns textContent, otherwise the child-node walk with the
final whitespace collapse and trim.  The ignore check on each child can
propagate an exception. -/
def computeChildAccessibleName :
    Nat → Doc → QEnv → Path → Nat → Option (Except String String)
  | 0, _, _, _, _ => none
  | fuel + 1, d, env, rp, depth =>
    if depth > 2 then
      some (.ok (jsOrS (textContentAt d rp) ""))
    else
      match ccanChildren fuel d env rp depth
          (List.range (childNodesAt d rp).length) with
      | none => none
      | some (.error e) => some (.error e)
      | some (.ok accessibleName) =>
        some (.ok (String.mk (trimChars (collapseWs false accessibleName.data))))

termination_by structural n => n

/-- The contribution of one child node inside the child-node loop of the
accessible-text.js computeChildAccessibleName: img children contribute
their alt attribute (even empty) plus a space; submit, reset, button and
image inputs their value or default plus a space; svg children their
title element text or alt or title attribute plus a space; other element
children their aria-label, else their raw textContent when they declare
aria-labelledby, else a recursive walk below depth 2, else their raw
textContent; text children their text. -/
def ccanPiece :
    Nat → Doc → QEnv → Path → Nat → Nat → DNode → Option (Except String String)
  | 0, _, _, _, _, _, _ => none
  | fuel + 1, d, env, rp, depth, j, child =>
    if child.isElem then
      match shouldIgnoreElement d (j :: rp) with
      | .error e => some (.error e)
      | .ok true => some (.ok "")
      | .ok false =>
        match child.tag with
        | "img" =>
          match child.getAttr "alt" with
          | some altText => some (.ok (altText ++ " "))
          | none => some (.ok "")
        | "input" =>
          let inputType := jsOrS (toLowerStr (child.getAttrD "type")) "text"
          match inputType with
          | "submit" | "reset" | "button" =>
            some (.ok ((jsOrS (child.getAttrD "value")
              (if inputType = "submit" then "Submit"
               else if inputType = "reset" then "Reset" else "")) ++ " "))
          | "image" =>
            some (.ok ((jsOrS (child.getAttrD "alt")
              (jsOrS (child.getAttrD "value") "Submit")) ++ " "))
          | _ => some (.ok "")
        | "svg" =>
          match queryDesc child (fun c => c.isElem && c.tag = "title") with
          | some svgTitle =>
            some (.ok (trimS (textContentN svgTitle) ++ " "))
          | none =>
            let svgAlt := jsOrS (child.getAttrD "alt") (child.getAttrD "title")
            if svgAlt ≠ "" then some (.ok (svgAlt ++ " "))
            else some (.ok "")
        | _ =>
          if child.getAttrD "aria-label" ≠ "" then
            some (.ok (child.getAttrD "aria-label" ++ " "))
          else if child.getAttrD "aria-labelledby" ≠ "" then
            some (.ok (textContentN child ++ " "))
          else if depth < 2 then
            computeChildAccessibleName fuel d env (j :: rp) (depth + 1)
          else some (.ok (textContentN child ++ " "))
    else
      some (.ok (match child with | .text s => s | _ => ""))

termination_by structural n => n

/-- The child-node loop of the accessible-text.js
computeChildAccessibleName: the concatenation of the per-child
contributions, with exception propagation. -/
def ccanChildren :
    Nat → Doc → QEnv → Path → Nat → List Nat → Option (Except String String)
  | 0, _, _, _, _, _ => none
  | fuel + 1, d, env, rp, depth, idxs =>
    match idxs with
    | [] => some (.ok "")
    | j :: rest =>
      match (childNodesAt d rp).get? j with
      | none => ccanChildren fuel d env rp depth rest
      | some child =>
        match ccanPiece fuel d env rp depth j child with
        | none => none
        | some (.error e) => some (.error e)
        | some (.ok pc) =>
          match ccanChildren fuel d env rp depth rest with
          | none => none
          | some (.error e) => some (.error e)
          | some (.ok acc) => some (.ok (pc ++ acc))

termination_by structural n => n

end

end ATv1

/-
Embedding of src/src/utils/common/getxpath.js.  The escapeSelector
dependency (escape-selector.js is not under src) is a parameter escf;
per the spec section 4.1 contract, a selector built from an escaped
string matches exactly the literal occurrences of that string, so the
id-uniqueness check through querySelectorAll is modelled as counting the
elements whose escaped id equals the escaped query string.
-/

/-- One XPath segment as built by getXPathArray: the lowercase node name
and the optional id, first class token and same-tag sibling ordinal. -/
structure XSeg where
  str : String
  id : Option String := none
  className : Option String := none
  count : Option Nat := none
deriving DecidableEq, Repr

/-- The number of elements matched by document.querySelectorAll with a
hash-id selector built from an escaped id (escaper contract: the escaped
selector matches elements whose escaped id equals it). -/
def countIdMatchesEsc (d : Doc) (escf : String → String) (eid : String) : Nat :=
  ((allElemPaths d).filter (fun q =>
    match nodeAt d q with
    | some n => n.hasAttr "id" && escf (n.getAttrD "id") = eid
    | none => false)).length

/-- The nextSibling branch of the sibling scan in getXPathArray: walk
back from the given sibling index; an element sibling with the same
node name yields count 1 and the walk otherwise continues through
previousSibling until it runs out.  Because the walk passes back over
the node itself, which trivially has its own node name, it always
produces count 1 when it starts at an existing sibling. -/
def nextSiblingScan (sibs : List DNode) (selfName : String) : Nat → Option Nat
  | 0 =>
    match sibs.get? 0 with
    | some sib => if sib.isElem && sib.tag = selfName then some 1 else none
    | none => none
  | j + 1 =>
    match sibs.get? (j + 1) with
    | some sib =>
      if sib.isElem && sib.tag = selfName then some 1
      else nextSiblingScan sibs selfName j
    | none => none

/-- The sibling-ordinal computation of getXPathArray: when a previous
sibling exists, one plus the number of preceding element siblings with
the same node name (dropped when that is 1); else, when a next sibling
exists, the nextSiblingScan result. -/
def siblingCount (sibs : List DNode) (i : Nat) (selfName : String) : Option Nat :=
  if 1 ≤ i && (sibs.get? (i - 1)).isSome then
    let c := 1 + ((sibs.take i).filter
      (fun s => s.isElem && s.tag = selfName)).length
    if c = 1 then none else some c
  else if (sibs.get? (i + 1)).isSome then
    nextSiblingScan sibs selfName (i + 1)
  else none

/-- The segment getXPathArray builds for the element at a path: node
name, the raw id when the escaped id is truthy and its id lookup matches
exactly one element, the first class token when the class attribute is
non-blank, and the sibling ordinal when above 1. -/
def mkXSeg (d : Doc) (escf : String → String) (i : Nat) (rp : Path)
    (n : DNode) : XSeg :=
  let sibs := childNodesAt d rp
  let count := siblingCount sibs i n.tag
  let eid := escf (n.getAttrD "id")
  let idField :=
    if eid ≠ "" && countIdMatchesEsc d escf eid = 1 then
      some (n.getAttrD "id")
    else none
  let classNameField :=
    let className := n.getAttrD "class"
    if className ≠ "" && trimS className ≠ "" then
      match wordsWs className with
      | t :: _ => some t
      | [] => none
    else none
  let countField :=
    match count with
    | some c => if 1 < c then some c else none
    | none => none
  ⟨n.tag, idField, classNameField, countField⟩

/-- getXPathArray: the root-first segment list for the node at a path.
The recursion runs on the parent first and pushes a segment for every
element node on the chain; the document node (the empty path)
contributes nothing once the accumulator exists. -/
def getXPathArray (d : Doc) (escf : String → String) : Path → List XSeg
  | [] => []
  | i :: rp =>
    let path := getXPathArray d escf rp
    match nodeAt d (i :: rp) with
    | some n => if n.isElem then path ++ [mkXSeg d escf i rp n] else path
    | none => path

/-- A single-quote string (written through its code point so that
serialized XPath predicates can embed it). -/
def sq : String := String.singleton (Char.ofNat 39)

/-- xpathToString: id predicate first, then class predicate, then the
bare tag with the ordinal suffix when positive. -/
def xpathToString (xpathArray : List XSeg) : String :=
  xpathArray.foldl (fun str elm =>
    match elm.id with
    | some i => str ++ "/" ++ elm.str ++ "[@id=" ++ sq ++ i ++ sq ++ "]"
    | none =>
      match elm.className with
      | some c => str ++ "/" ++ elm.str ++ "[@class=" ++ sq ++ c ++ sq ++ "]"
      | none =>
        str ++ "/" ++ elm.str ++
          (match elm.count with
           | some c => if 0 < c then "[" ++ toString c ++ "]" else ""
           | none => "")) ""

/-- getXpath: the serialized path, with the special document case
(calling it on the document node itself yields the fixed root segment). -/
def getXpath (d : Doc) (escf : String → String) (rp : Path) : String :=
  if rp = [] then "/html" else xpathToString (getXPathArray d escf rp)

/-- XPath child-axis selection of one serialized segment from one
context node: the element children with the segment node name, narrowed
by the id predicate, else the class predicate (exact attribute match),
else the position among the name-matched children when an ordinal is
present. -/
def segChildSelect (d : Doc) (ctx : Path) (s : XSeg) : List Path :=
  let cs := childNodesAt d ctx
  let idxs := (List.range cs.length).filter (fun i =>
    match cs.get? i with
    | some n => n.isElem && n.tag = s.str
    | none => false)
  match s.id with
  | some idv =>
    (idxs.filter (fun j =>
      match cs.get? j with
      | some n => n.getAttr "id" = some idv
      | none => false)).map (fun j => j :: ctx)
  | none =>
    match s.className with
    | some cv =>
      (idxs.filter (fun j =>
        match cs.get? j with
        | some n => n.getAttr "class" = some cv
        | none => false)).map (fun j => j :: ctx)
    | none =>
      match s.count with
      | some k =>
        match idxs.get? (k - 1) with
        | some j => [j :: ctx]
        | none => []
      | none => idxs.map (fun j => j :: ctx)

/-- Evaluation of a serialized XPath (as a segment list) against the
document, starting from the document node: the standard child-axis
semantics of the paths xpathToString produces. -/
def evalXPath (d : Doc) (segs : List XSeg) : List Path :=
  segs.foldl (fun ctxs s => ctxs.flatMap (fun ctx => segChildSelect d ctx s)) [[]]

/-
Embedding of src/src/utils/common/enhanced-selector.js.  The injected
window dependencies that are not under src are parameters: escf for
window.escapeSelector, friendly for window.getFriendlyUriEnd (empty
string when no friendly tail exists, mirroring its falsy return), and qc
for document.querySelectorAll(selectorString).length on the composed
selector strings (the rendering-provider query capability of spec
section 6).  window.getNodeAttributes returns the node attribute list.
-/

/-- The attribute exclusion list of buildFullDomStatistics. -/
def ignoredAttributes : List String :=
  ["class", "style", "id", "selected", "checked", "disabled", "tabindex",
   "aria-checked", "aria-selected", "aria-invalid", "aria-activedescendant",
   "aria-busy", "aria-disabled", "aria-expanded", "aria-grabbed",
   "aria-pressed", "aria-valuenow", "xmlns"]

/-- value.replace prefixing every backslash or double quote with a
backslash (the first replace of the attribute-value normalization). -/
def escapeBsQuote (s : String) : String :=
  String.mk (s.data.flatMap (fun c =>
    if c = '\\' || c = '"' then ['\\', c] else [c]))

/-- The second replace of the attribute-value normalization: the source
regex has escaped backslashes, so it rewrites the literal two-character
sequences backslash-r-backslash-n, backslash-r and backslash-n to
backslash-a-space. -/
def lineEscapeChars : List Char → List Char
  | '\\' :: 'r' :: '\\' :: 'n' :: rest => '\\' :: 'a' :: ' ' :: lineEscapeChars rest
  | '\\' :: 'r' :: rest => '\\' :: 'a' :: ' ' :: lineEscapeChars rest
  | '\\' :: 'n' :: rest => '\\' :: 'a' :: ' ' :: lineEscapeChars rest
  | c :: rest => c :: lineEscapeChars rest
  | [] => []

/-- Both replaces of the attribute-value normalization in sequence. -/
def escAttrValue (s : String) : String :=
  String.mk (lineEscapeChars (escapeBsQuote s).data)

/-- Whether the first character list starts the second. -/
def startsWithL : List Char → List Char → Bool
  | [], _ => true
  | _ :: _, [] => false
  | a :: as, b :: bs => a = b && startsWithL as bs

/-- Substring occurrence at some position of a character list. -/
def containsSubL (needle : List Char) : List Char → Bool
  | [] => startsWithL needle []
  | c :: rest => startsWithL needle (c :: rest) || containsSubL needle rest

/-- Substring search on strings, mirroring value.indexOf(needle) not
equal to -1. -/
def containsSub (h n : String) : Bool :=
  containsSubL n.data h.data

/-- The frequency tables of the statistics pass: tag counts, escaped
class-token counts and normalized attribute-entry counts. -/
structure SelectorData where
  classes : List (String × Nat)
  tags : List (String × Nat)
  attributes : List (String × Nat)
deriving DecidableEq, Repr

/-- Empty frequency tables. -/
def emptySelectorData : SelectorData := ⟨[], [], []⟩

/-- Increment of one key in a frequency table. -/
def bump (m : List (String × Nat)) (k : String) : List (String × Nat) :=
  match m.find? (fun kv => kv.1 = k) with
  | some _ => m.map (fun kv => if kv.1 = k then (kv.1, kv.2 + 1) else kv)
  | none => m ++ [(k, 1)]

/-- Table lookup with a zero default, mirroring table[key] or 0. -/
def lookupD (m : List (String × Nat)) (k : String) : Nat :=
  ((m.find? (fun kv => kv.1 = k)).map (fun kv => kv.2)).getD 0

/-- The normalized attribute entry string of buildFullDomStatistics, or
none when the attribute is filtered out: excluded names, names with a
namespace colon and values of length 31 or more (non-empty) produce no
entry; counted attributes whose name contains href or src use the
friendly URI tail in a suffix-match entry when one exists. -/
def attrEntry (friendly escf : String → String) (el : DNode) (a : DAttr) :
    Option String :=
  if ignoredAttributes.contains a.name then none
  else if a.name.data.contains ':' then none
  else if !(a.value = "" || a.value.length < 31) then none
  else
    some
      (if containsSub a.name "href" || containsSub a.name "src" then
        let friendlyV := friendly (el.getAttrD a.name)
        if friendlyV ≠ "" then
          escf a.name ++ "$=\"" ++ escAttrValue friendlyV ++ "\""
        else escf a.name ++ "=\"" ++ escAttrValue (el.getAttrD a.name) ++ "\""
      else escf a.name ++ "=\"" ++ escAttrValue a.value ++ "\"")

/-- The surviving attribute entries of one element, in attribute order:
the filterMap view of the filter-then-forEach attribute walk of
buildFullDomStatistics. -/
def attrEntriesOf (friendly escf : String → String) (n : DNode) : List String :=
  n.attrs.filterMap (attrEntry friendly escf n)

/-- The per-element step of buildFullDomStatistics: bump the tag count,
every escaped class-token count and every surviving attribute-entry
count. -/
def statStep (friendly escf : String → String) (data : SelectorData)
    (n : DNode) : SelectorData :=
  if !n.isElem then data
  else
    let data₁ := { data with tags := bump data.tags n.tag }
    let data₂ :=
      if n.classList ≠ [] then
        n.classList.foldl (fun dt cl =>
          { dt with classes := bump dt.classes (escf cl) }) data₁
      else data₁
    if n.attrs ≠ [] then
      n.attrs.foldl (fun dt a =>
        match attrEntry friendly escf n a with
        | some atnv => { dt with attributes := bump dt.attributes atnv }
        | none => dt) data₂
    else data₂

-- All element nodes of a forest in document order.
mutual

/-- All element nodes of a subtree in document order. -/
def allElemsN : DNode → List DNode
  | .text _ => []
  | .elem t as st pb pa cs => .elem t as st pb pa cs :: allElemsL cs

/-- All element nodes of a forest in document order. -/
def allElemsL : List DNode → List DNode
  | [] => []
  | c :: rest => allElemsN c ++ allElemsL rest

end

/-- The statistics fold over an explicit element list (the
querySelectorAll universal-selector result). -/
def statsOfElems (friendly escf : String → String) (els : List DNode) :
    SelectorData :=
  els.foldl (statStep friendly escf) emptySelectorData

/-- buildFullDomStatistics: the statistics fold over every element of
the document in document order. -/
def buildFullDomStatistics (friendly escf : String → String) (d : Doc) :
    SelectorData :=
  statsOfElems friendly escf (allElemsL d.childNodes)

/-- Characters of the class part of the force-hierarchical regexes. -/
def isClassChar (c : Char) : Bool :=
  c.isAlpha || c = '-' || c = '_'

/-- The bare-class-selector test of window.getSelector. -/
def reBareClass (s : String) : Bool :=
  match s.data with
  | '.' :: rest => rest ≠ [] && rest.all isClassChar
  | _ => false

/-- The bare-attribute-selector test of window.getSelector. -/
def reTagAttr (s : String) : Bool :=
  let tagPart := s.data.takeWhile Char.isAlpha
  let rest := s.data.drop tagPart.length
  tagPart ≠ [] &&
    (match rest with
     | '[' :: more =>
       (match more.getLast? with
        | some ']' =>
          let mid := more.dropLast
          mid ≠ [] && mid.all (fun c => c ≠ ']')
        | _ => false)
     | _ => false)

/-- The bare-tag-selector test of window.getSelector. -/
def reBareTag (s : String) : Bool :=
  s.data ≠ [] && s.data.all Char.isAlpha

/-- The simple-tag-plus-class-selector test of window.getSelector. -/
def reTagClass (s : String) : Bool :=
  let tagPart := s.data.takeWhile Char.isAlpha
  let rest := s.data.drop tagPart.length
  tagPart ≠ [] &&
    (match rest with
     | '.' :: more => more ≠ [] && more.all isClassChar
     | _ => false)

/-- The too-generic classification of window.getSelector: a bare class
pattern, a bare attribute pattern, a bare tag pattern or a simple
tag-plus-class pattern. -/
def shouldForceHierarchical (result : String) : Bool :=
  reBareClass result || reTagAttr result || reBareTag result || reTagClass result

/-- The path of document.documentElement: the first element child of the
document, or none. -/
def docElemPathO (d : Doc) : Option Path :=
  ((List.range d.childNodes.length).find? (fun i =>
    match d.childNodes.get? i with
    | some n => n.isElem
    | none => false)).map (fun i => [i])

/-- The 1-based position of a node among the element children of its
parent, mirroring Array.from(parent.children).indexOf(current) + 1
(0 when the parent is the document-or-null boundary). -/
def childElemIndex (d : Doc) : Path → Nat
  | [] => 0
  | i :: rp => 1 + (((childNodesAt d rp).take i).filter (fun s => s.isElem)).length

/-- The rarest key selection by table count: the first key with a
positive count strictly below every earlier winner (count > 0 and
count < lowestCount with first-encountered tie-breaking). -/
def bestByCount (m : List (String × Nat)) (keys : List String) : Option String :=
  (keys.foldl (fun (acc : Option String × Option Nat) k =>
    let c := lookupD m k
    if 0 < c && (match acc.2 with | none => true | some lo => c < lo) then
      (some k, some c)
    else acc) (none, none)).1

/-- The rarest attribute selector of generateHierarchicalSelector:
attributes other than class, style and id, rendered as
escapedName="escapedValue" and ranked by the attribute table count. -/
def bestAttrSel (stats : SelectorData) (escf : String → String)
    (attrs : List DAttr) : Option String :=
  (attrs.foldl (fun (acc : Option String × Option Nat) attr =>
    if attr.name ≠ "class" && attr.name ≠ "style" && attr.name ≠ "id" then
      let attrSelector := escf attr.name ++ "=\"" ++ escapeBsQuote attr.value ++ "\""
      let c := lookupD stats.attributes attrSelector
      if 0 < c && (match acc.2 with | none => true | some lo => c < lo) then
        (some attrSelector, some c)
      else acc
    else acc) (none, none)).1

/-- The while loop of generateHierarchicalSelector: walk from the target
node towards the root (the empty path standing for a null parent),
stopping at the document element; a unique id prepends a hash selector
and stops; otherwise the level selector is the lowercase tag, the rarest
positive-count class from the table, else the rarest positive-count
attribute from the table, with an nth-child suffix when the composed
selector matches more than one element. -/
def ghsLoop (d : Doc) (stats : SelectorData) (escf : String → String)
    (qc : String → Nat) : Path → List String → List String
  | [], path => path
  | i :: rp, path =>
    if docElemPathO d = some (i :: rp) then path
    else
      match nodeAt d (i :: rp) with
      | none => path
      | some n =>
        let selector₀ := toLowerStr n.tag
        let idv := n.getAttrD "id"
        if idv ≠ "" && qc ("#" ++ escf idv) = 1 then
          ("#" ++ escf idv) :: path
        else
          let selector₁ :=
            if n.classList ≠ [] then
              match bestByCount stats.classes (n.classList.map escf) with
              | some bestClass => selector₀ ++ "." ++ bestClass
              | none => selector₀
            else selector₀
          let selector₂ :=
            if !(selector₁.data.contains '.') && n.attrs ≠ [] then
              match bestAttrSel stats escf n.attrs with
              | some bestAttribute => selector₁ ++ "[" ++ bestAttribute ++ "]"
              | none => selector₁
            else selector₁
          let tempSelector :=
            if path ≠ [] then selector₂ ++ " > " ++ String.intercalate " > " path
            else selector₂
          let selector₃ :=
            if 1 < qc tempSelector then
              if rp ≠ [] then
                selector₂ ++ ":nth-child(" ++ toString (childElemIndex d (i :: rp)) ++ ")"
              else selector₂
            else selector₂
          ghsLoop d stats escf qc rp (selector₃ :: path)

/-- generateHierarchicalSelector: the joined path of the loop started at
the target node with an empty accumulator. -/
def generateHierarchicalSelector (d : Doc) (stats : SelectorData)
    (escf : String → String) (qc : String → Nat) (rp : Path) : String :=
  String.intercalate " > " (ghsLoop d stats escf qc rp [])

/-- The while loop of generateContextualSelector: walk from the
immediate parent up to depth 3, preferring a parent id (prepended and
final), else the rarest positive-count parent class, with an nth-child
suffix when the composed selector matches more than one element. -/
def gcsLoop (d : Doc) (stats : SelectorData) (escf : String → String)
    (qc : String → Nat) : Path → String → Nat → String
  | [], contextualSelector, _ => contextualSelector
  | i :: rp, contextualSelector, depth =>
    if docElemPathO d = some (i :: rp) || 3 ≤ depth then contextualSelector
    else
      match nodeAt d (i :: rp) with
      | none => contextualSelector
      | some n =>
        if n.getAttrD "id" ≠ "" then
          "#" ++ escf (n.getAttrD "id") ++ " > " ++ contextualSelector
        else
          let parentSelector :=
            if n.classList ≠ [] then
              match bestByCount stats.classes (n.classList.map escf) with
              | some bestClass => toLowerStr n.tag ++ "." ++ bestClass
              | none => toLowerStr n.tag
            else toLowerStr n.tag
          let tempSelector := parentSelector ++ " > " ++ contextualSelector
          let parentSelector₂ :=
            if 1 < qc tempSelector then
              parentSelector ++ ":nth-child(" ++ toString
                (if rp = [] then 0 else childElemIndex d (i :: rp)) ++ ")"
            else parentSelector
          gcsLoop d stats escf qc rp (parentSelector₂ ++ " > " ++ contextualSelector)
            (depth + 1)

/-- generateContextualSelector: the loop started at the immediate parent
of the element with the base selector as the accumulator. -/
def generateContextualSelector (d : Doc) (stats : SelectorData)
    (escf : String → String) (qc : String → Nat) (rp : Path)
    (baseSelector : String) : String :=
  gcsLoop d stats escf qc rp.tail baseSelector 0

/-- window.getSelector: the original synthesis result, escalated to a
contextual selector when classified too generic; when the original
synthesis throws, the hierarchical fallback. -/
def windowGetSelector (d : Doc) (stats : SelectorData)
    (escf : String → String) (qc : String → Nat)
    (origGetSelector : Path → Except String String) (rp : Path) : String :=
  match origGetSelector rp with
  | .ok result =>
    if shouldForceHierarchical result then
      generateContextualSelector d stats escf qc rp result
    else result
  | .error _ => generateHierarchicalSelector d stats escf qc rp

/-
Embedding of the extraction loop of src/src/utils/acctext.ts
(extractAccessibleText); the extractLinks variants in the unnamed parts
run the same ProcessedSet-guarded nested forEach with a shorter or equal
selector allowlist.  Elements are identified by their object identity,
modelled as a number; querySelectorAll is the engine capability
queryFn. -/

/-- The fixed selector allowlist of extractAccessibleText. -/
def acctextSelectors : List String :=
  ["a[href]", "[role=\"link\"]", "button", "input", "select", "textarea",
   "fieldset", "table", "figure", "img", "object", "embed", "iframe",
   "audio", "video", "canvas", "svg", "math", "label", "div[id*=\"pseudo\"]",
   "div[role]", "span[id]", "div[id]", "[aria-label]", "[aria-labelledby]",
   "[aria-hidden]", "[role=\"form\"]", "[role=\"checkbox\"]",
   "[role=\"radio\"]", "[role=\"button\"]", "[role=\"textbox\"]",
   "[role=\"slider\"]", "[role=\"progressbar\"]", "[role=\"img\"]",
   "[role=\"heading\"]", "[role=\"group\"]", "[role=\"region\"]",
   "[role=\"alert\"]", "[role=\"status\"]", "[role=\"log\"]",
   "[role=\"marquee\"]", "[role=\"timer\"]", "[role=\"columnheader\"]",
   "[role=\"presentation\"]", "[role=\"none\"]", "[contenteditable]",
   "custom-element", "my-autonomous-element", "[is]", "xml\\:element",
   "xhtml\\:span"]

/-- The nested forEach of extractAccessibleText over one selector list:
the first component of the state is the ProcessedSet of element
identities, the second the emission order.  An element already in the
set is skipped; otherwise it is added and emitted. -/
def extractLoopOver (selList : List String) (queryFn : String → List Nat) :
    List Nat :=
  (selList.foldl (fun (st : List Nat × List Nat) selector =>
    (queryFn selector).foldl (fun (st₂ : List Nat × List Nat) el =>
      if st₂.1.contains el then st₂
      else (el :: st₂.1, st₂.2 ++ [el])) st) ([], [])).2

/-- The element identities extractAccessibleText emits, in order; one
AccessibleTextInfo record is assembled per emitted identity. -/
def extractLoop (queryFn : String → List Nat) : List Nat :=
  extractLoopOver acctextSelectors queryFn

-- Subtree size, the termination measure of the resolver recursion.
mutual

/-- Size of a subtree (number of nodes). -/
def sizeN : DNode → Nat
  | .text _ => 1
  | .elem _ _ _ _ _ cs => 1 + sizeL cs

/-- Size of a forest (number of nodes). -/
def sizeL : List DNode → Nat
  | [] => 0
  | c :: rest => sizeN c + sizeL rest

end

/-- Size of the subtree at a path (0 for an invalid path or the
document). -/
def subSize (d : Doc) (rp : Path) : Nat :=
  match nodeAt d rp with
  | some n => sizeN n
  | none => 0

/-- The termination measure of the resolver recursion at a path: the
subtree size at the path, with the whole forest (plus one) for the
document path and for invalid paths, so that every existing child is
strictly smaller than its parent path. -/
def pathMeasure (d : Doc) (rp : Path) : Nat :=
  match nodeAt d rp with
  | some n => sizeN n
  | none => sizeL d.childNodes + 1

/-- A fueled computation stabilizes: from some fuel on it returns one
fixed defined value.  This is the shallow-embedding statement that the
embedded recursion terminates. -/
def StabO {α : Type} (f : Nat → Option α) : Prop :=
  ∃ N s, ∀ m, N ≤ m → f m = some s

/-
Concrete fixtures for witnesses and counterexamples.
-/

/-- A benign computed style. -/
def okSt : Except String ElemStyle := .ok ⟨"block", "visible"⟩

/-- Benign pseudo-element styles (no generated content). -/
def okPs : Except String PseudoStyle := .ok ⟨"none", "none", "visible"⟩

/-- Element constructor with benign styles. -/
def mkEl (tag : String) (attrs : List DAttr) (cs : List DNode) : DNode :=
  .elem tag attrs okSt okPs okPs cs

/-- A concrete escapeSelector instance: the escaper contract is the
identity on the plain alphanumeric names used in the fixtures. -/
def escId : String → String := fun s => s

/-- A concrete engine: the id query never fails. -/
def qe0 : QEnv := ⟨fun _ => false⟩

/-- A concrete getFriendlyUriEnd instance that never finds a tail. -/
def frNone : String → String := fun _ => ""

/-- A concrete getFriendlyUriEnd instance with a fixed tail. -/
def frTail : String → String := fun _ => "page.html"

/-- A concrete querySelectorAll count: every composed selector matches
exactly one element. -/
def qcOne : String → Nat := fun _ => 1

/-- A concrete original getSelector that throws on every input. -/
def origThrow : Path → Except String String := fun _ => .error "synthesis failed"

/-- Fixture: span with id lbl holding messy text, and a div referencing
it through aria-labelledby while also carrying aria-label X. -/
def exLbl : Doc :=
  ⟨[mkEl "html" [] [mkEl "body" [] [
    mkEl "span" [⟨"id", "lbl"⟩] [.text "  Real   Label "],
    mkEl "div" [⟨"aria-labelledby", "lbl"⟩, ⟨"aria-label", "X"⟩] []]]]⟩

/-- Fixture: div with a dangling aria-labelledby reference and a
non-empty aria-label. -/
def exDang : Doc :=
  ⟨[mkEl "html" [] [mkEl "body" [] [
    mkEl "div" [⟨"aria-labelledby", "missing"⟩, ⟨"aria-label", "X"⟩] []]]]⟩

/-- Fixture: div with aria-hidden true and aria-label X. -/
def exHidden : Doc :=
  ⟨[mkEl "html" [] [mkEl "body" [] [
    mkEl "div" [⟨"aria-hidden", "true"⟩, ⟨"aria-label", "X"⟩] []]]]⟩

/-- Fixture: div with role presentation and aria-label X. -/
def exRolePres : Doc :=
  ⟨[mkEl "html" [] [mkEl "body" [] [
    mkEl "div" [⟨"role", "presentation"⟩, ⟨"aria-label", "X"⟩] []]]]⟩

/-- Fixture: div with computed display none and aria-label X. -/
def exNoneStyle : Doc :=
  ⟨[mkEl "html" [] [mkEl "body" [] [
    .elem "div" [⟨"aria-label", "X"⟩] (.ok ⟨"none", "visible"⟩) okPs okPs []]]]⟩

/-- Fixture: div with computed display contents. -/
def exContents : Doc :=
  ⟨[mkEl "html" [] [mkEl "body" [] [
    .elem "div" [] (.ok ⟨"contents", "visible"⟩) okPs okPs [.text "inner"]]]]⟩

/-- Fixture: div whose computed-style query throws, with text content
and a title. -/
def exErrStyle : Doc :=
  ⟨[mkEl "html" [] [mkEl "body" [] [
    .elem "div" [⟨"aria-label", "X"⟩, ⟨"title", "T"⟩] (.error "style query failed")
      okPs okPs [.text "  body   text "]]]]⟩

/-- Fixture for the XPath claim: html, body, a div with the two class
tokens a and b, and inside it a span with the document-unique id x. -/
def exXp1 : Doc :=
  ⟨[mkEl "html" [] [mkEl "body" [] [
    mkEl "div" [⟨"class", "a b"⟩] [mkEl "span" [⟨"id", "x"⟩] [.text "hi"]]]]]⟩

/-- Fixture for the XPath claim witness: html, body and a span with the
document-unique id x. -/
def exXp2 : Doc :=
  ⟨[mkEl "html" [] [mkEl "body" [] [mkEl "span" [⟨"id", "x"⟩] [.text "hi"]]]]⟩

/-- Fixture for the selector-fallback claim: the target div carries the
class tokens a and b; two span elements elsewhere carry class a, making
b the rarer token. -/
def exSelA : Doc :=
  ⟨[mkEl "html" [] [mkEl "body" [] [
    mkEl "div" [⟨"class", "a b"⟩] [],
    mkEl "span" [⟨"class", "a"⟩] [],
    mkEl "span" [⟨"class", "a"⟩] []]]]⟩

/-- Like exSelA with the two span elements carrying class b instead, so
a is the rarer token; the target div and its ancestor chain are
unchanged. -/
def exSelB : Doc :=
  ⟨[mkEl "html" [] [mkEl "body" [] [
    mkEl "div" [⟨"class", "a b"⟩] [],
    mkEl "span" [⟨"class", "b"⟩] [],
    mkEl "span" [⟨"class", "b"⟩] []]]]⟩

/-- Fixture for the statistics claim: an anchor element with one short
href attribute (under the length ceiling, so it is counted). -/
def exStatsAnchor : DNode :=
  mkEl "a" [⟨"href", "https://ex.co/a/page.html"⟩] []

/-
Normalization lemmas: the output of normalizeText has no leading or
trailing whitespace and no two consecutive whitespace characters.
-/

theorem noDoubleWs_tail {a : Char} {l : List Char}
    (h : noDoubleWs (a :: l) = true) : noDoubleWs l = true := by
  cases l with
  | nil => rfl
  | cons b rest =>
    simp only [noDoubleWs, Bool.and_eq_true] at h
    exact h.2

theorem noDoubleWs_cons {a : Char} {l : List Char}
    (hl : noDoubleWs l = true)
    (hh : ∀ b, l.head? = some b → ¬(isWsChar a = true ∧ isWsChar b = true)) :
    noDoubleWs (a :: l) = true := by
  cases l with
  | nil => rfl
  | cons b rest =>
    simp only [noDoubleWs, Bool.and_eq_true]
    refine ⟨?_, hl⟩
    have := hh b rfl
    cases hwa : isWsChar a <;> cases hwb : isWsChar b <;> simp_all

theorem collapseWs_true_head (l : List Char) :
    ∀ c, (collapseWs true l).head? = some c → isWsChar c = false := by
  induction l with
  | nil => intro c h; simp [collapseWs] at h
  | cons a rest ih =>
    intro c h
    cases hw : isWsChar a with
    | true =>
      simp only [collapseWs, hw, if_true] at h
      exact ih c h
    | false =>
      simp only [collapseWs, hw, Bool.false_eq_true, if_false, List.head?] at h
      cases h
      exact hw

theorem collapseWs_noDouble (l : List Char) (b : Bool) :
    noDoubleWs (collapseWs b l) = true := by
  induction l generalizing b with
  | nil => rfl
  | cons a rest ih =>
    cases hw : isWsChar a with
    | true =>
      cases b with
      | true => simpa [collapseWs, hw] using ih true
      | false =>
        simp only [collapseWs, hw, if_true, Bool.false_eq_true, if_false]
        refine noDoubleWs_cons (ih true) ?_
        intro c hc hcontr
        have := collapseWs_true_head rest c hc
        simp [this] at hcontr
    | false =>
      simp only [collapseWs, hw, Bool.false_eq_true, if_false]
      refine noDoubleWs_cons (ih false) ?_
      intro c _ hcontr
      simp [hw] at hcontr

theorem dropWhile_head_not_ws (l : List Char) :
    ∀ c, (l.dropWhile isWsChar).head? = some c → isWsChar c = false := by
  induction l with
  | nil => intro c h; simp at h
  | cons a rest ih =>
    intro c h
    cases hw : isWsChar a with
    | true =>
      simp only [List.dropWhile, hw] at h
      exact ih c h
    | false =>
      simp only [List.dropWhile, hw, List.head?] at h
      cases h
      exact hw

theorem noDoubleWs_dropWhile (l : List Char) (h : noDoubleWs l = true) :
    noDoubleWs (l.dropWhile isWsChar) = true := by
  induction l with
  | nil => rfl
  | cons a rest ih =>
    cases hw : isWsChar a with
    | true =>
      simp only [List.dropWhile, hw]
      exact ih (noDoubleWs_tail h)
    | false => simpa [List.dropWhile, hw] using h

theorem dropTrailWs_head (l : List Char) :
    ∀ c, (dropTrailWs l).head? = some c → l.head? = some c := by
  induction l with
  | nil => intro c h; simp [dropTrailWs] at h
  | cons a rest _ =>
    intro c h
    simp only [dropTrailWs] at h
    cases hb : (dropTrailWs rest = [] : Bool) && isWsChar a with
    | true =>
      rw [hb] at h
      simp at h
    | false =>
      rw [hb] at h
      simp only [Bool.false_eq_true, if_false, List.head?] at h
      simpa using h

theorem dropTrailWs_last (l : List Char) :
    ∀ c, (dropTrailWs l).getLast? = some c → isWsChar c = false := by
  induction l with
  | nil => intro c h; simp [dropTrailWs] at h
  | cons a rest ih =>
    intro c h
    simp only [dropTrailWs] at h
    cases hb : (dropTrailWs rest = [] : Bool) && isWsChar a with
    | true =>
      rw [hb] at h
      simp at h
    | false =>
      rw [hb] at h
      simp only [Bool.false_eq_true, if_false] at h
      cases hrest : dropTrailWs rest with
      | nil =>
        rw [hrest] at h
        simp only [List.getLast?] at h
        cases h
        rw [hrest] at hb
        simpa using hb
      | cons x xs =>
        rw [hrest] at h
        rw [List.getLast?_cons_cons] at h
        rw [← hrest] at h
        exact ih c h

theorem noDoubleWs_dropTrailWs (l : List Char) (h : noDoubleWs l = true) :
    noDoubleWs (dropTrailWs l) = true := by
  induction l with
  | nil => rfl
  | cons a rest ih =>
    simp only [dropTrailWs]
    cases hb : (dropTrailWs rest = [] : Bool) && isWsChar a with
    | true => simp; rfl
    | false =>
      simp only [Bool.false_eq_true, if_false]
      refine noDoubleWs_cons (ih (noDoubleWs_tail h)) ?_
      intro c hc
      have hrc : rest.head? = some c := dropTrailWs_head rest c hc
      cases rest with
      | nil => simp at hrc
      | cons b rs =>
        simp only [List.head?] at hrc
        cases hrc
        simp only [noDoubleWs, Bool.and_eq_true] at h
        intro hcontr
        have := h.1
        simp [hcontr.1, hcontr.2] at this

theorem isNormalizedStr_normalizeText (s : String) :
    isNormalizedStr (normalizeText s) = true := by
  by_cases hs : s = ""
  · subst hs; decide
  · simp only [normalizeText, if_neg hs, isNormalizedStr, trimChars]
    set l₀ := collapseWs false s.data with hl₀
    set l₁ := l₀.dropWhile isWsChar with hl₁
    set l₂ := dropTrailWs l₁ with hl₂
    have hnd : noDoubleWs l₂ = true :=
      noDoubleWs_dropTrailWs l₁ (noDoubleWs_dropWhile l₀ (collapseWs_noDouble _ _))
    have hhead : (match l₂.head? with
        | some c => !isWsChar c
        | none => true) = true := by
      cases hh : l₂.head? with
      | none => rfl
      | some c =>
        have : l₁.head? = some c := dropTrailWs_head l₁ c hh
        simp [dropWhile_head_not_ws l₀ c this]
    have hlast : (match l₂.getLast? with
        | some c => !isWsChar c
        | none => true) = true := by
      cases hh : l₂.getLast? with
      | none => rfl
      | some c => simp [dropTrailWs_last l₁ c hh]
    rw [Bool.and_eq_true, Bool.and_eq_true]
    exact ⟨⟨hhead, hlast⟩, hnd⟩

theorem isNormalizedStr_empty : isNormalizedStr "" = true := by decide

theorem isNormalized_of_map_norm {o : Option String} {r : String}
    (h : o.map normalizeText = some r) : isNormalizedStr r = true := by
  cases o with
  | none => simp at h
  | some t =>
    simp only [Option.map] at h
    cases h
    exact isNormalizedStr_normalizeText t

theorem atv2_result_normalized (fuel : Nat) (d : Doc) (env : QEnv) (rp : Path)
    (ctx : Bool) (r : String)
    (h : ATv2.getAccessibleText fuel d env rp ctx = some r) :
    isNormalizedStr r = true := by
  cases fuel with
  | zero => simp [ATv2.getAccessibleText] at h
  | succ fuel =>
    simp only [ATv2.getAccessibleText] at h
    repeat' split at h
    all_goals first
      | (cases h; exact isNormalizedStr_empty)
      | (cases h; exact isNormalizedStr_normalizeText _)
      | exact isNormalized_of_map_norm h
      | simp at h

theorem atv1_result_normalized (fuel : Nat) (d : Doc) (env : QEnv) (rp : Path)
    (ctx : Bool) (r : String)
    (h : ATv1.getAccessibleText fuel d env rp ctx = some r) :
    isNormalizedStr r = true := by
  cases fuel with
  | zero => simp [ATv1.getAccessibleText] at h
  | succ fuel =>
    simp only [ATv1.getAccessibleText] at h
    repeat' split at h
    all_goals first
      | (cases h; exact isNormalizedStr_empty)
      | (cases h; exact isNormalizedStr_normalizeText _)
      | exact isNormalized_of_map_norm h
      | simp at h

/-- Claim C9: every string the accessible-name resolver returns (in
either source variant, on any input, element or not) is
whitespace-normalized: no leading or trailing whitespace and no run of
two or more consecutive whitespace characters, because every return path
passes through normalizeText or returns the empty string. -/
theorem c9_resolver_output_normalized :
    (∀ (fuel : Nat) (d : Doc) (env : QEnv) (rp : Path) (ctx : Bool) (r : String),
      ATv2.getAccessibleText fuel d env rp ctx = some r →
      isNormalizedStr r = true) ∧
    (∀ (fuel : Nat) (d : Doc) (env : QEnv) (rp : Path) (ctx : Bool) (r : String),
      ATv1.getAccessibleText fuel d env rp ctx = some r →
      isNormalizedStr r = true) :=
  ⟨atv2_result_normalized, atv1_result_normalized⟩

/-- Witness for C9 at a concrete input: the resolver output on the
labelledby fixture is whitespace-normalized. -/
theorem c9_resolver_output_normalized_witness :
    ATv2.getAccessibleText 10 exLbl qe0 [1, 0, 0] false = some "Real Label" ∧
    isNormalizedStr "Real Label" = true :=
  ⟨by decide, c9_resolver_output_normalized.1 10 exLbl qe0 [1, 0, 0] false
    "Real Label" (by decide)⟩

/-
Ignore-condition lemmas shared by several claims.
-/

theorem atv2_ignore_of_ariaHidden {d : Doc} {rp : Path} {n : DNode}
    (hn : nodeAt d rp = some n)
    (ha : n.getAttr "aria-hidden" = some "true" ∨
      n.getAttr "role" = some "presentation" ∨
      n.getAttr "role" = some "none") :
    ATv2.shouldIgnoreElement d rp = true := by
  rcases ha with h | h | h <;> simp [ATv2.shouldIgnoreElement, hn, h]

theorem atv1_ignore_of_ariaHidden {d : Doc} {rp : Path} {n : DNode}
    (hn : nodeAt d rp = some n)
    (ha : n.getAttr "aria-hidden" = some "true" ∨
      n.getAttr "role" = some "presentation" ∨
      n.getAttr "role" = some "none") :
    ATv1.shouldIgnoreElement d rp = .ok true := by
  rcases ha with h | h | h <;> simp [ATv1.shouldIgnoreElement, hn, h]

theorem atv2_ignore_of_hidden_style {d : Doc} {rp : Path} {n : DNode}
    {st : ElemStyle} (hn : nodeAt d rp = some n) (hst : n.style = .ok st)
    (hh : st.display = "none" ∨ st.visibility = "hidden") :
    ATv2.shouldIgnoreElement d rp = true := by
  simp only [ATv2.shouldIgnoreElement, hn, hst]
  split_ifs with h1 h2 h3 h4 h5 <;> first
    | rfl
    | (exfalso
       cases hh with
       | inl hd => simp_all
       | inr hv => simp_all)

theorem atv2_not_ignored_contents {d : Doc} {rp : Path} {n : DNode}
    {st : ElemStyle} (hn : nodeAt d rp = some n) (hst : n.style = .ok st)
    (hah : ¬ n.getAttr "aria-hidden" = some "true")
    (hr₁ : ¬ n.getAttr "role" = some "presentation")
    (hr₂ : ¬ n.getAttr "role" = some "none")
    (hdc : st.display = "contents") (hv : st.visibility ≠ "hidden") :
    ATv2.shouldIgnoreElement d rp = false := by
  simp only [ATv2.shouldIgnoreElement, hn, hst]
  split_ifs with h1 h2 h3 h4 h5 <;> simp_all

/-
Claim C6: the ignore check precedes all naming strategies.
-/

/-- Claim C6: in both resolver variants, an element with aria-hidden
true, or with a role of presentation or none, resolves to the empty
accessible name even when it also declares a non-empty aria-label: the
ignore check precedes every naming strategy. -/
theorem c6_aria_hidden_precedes_strategies (fuel : Nat) (d : Doc) (env : QEnv)
    (rp : Path) (ctx : Bool) (n : DNode) (hn : nodeAt d rp = some n)
    (he : n.isElem = true)
    (ha : n.getAttr "aria-hidden" = some "true" ∨
      n.getAttr "role" = some "presentation" ∨
      n.getAttr "role" = some "none") :
    ATv2.getAccessibleText (fuel + 1) d env rp ctx = some "" ∧
    ATv1.getAccessibleText (fuel + 1) d env rp ctx = some "" := by
  constructor
  · simp [ATv2.getAccessibleText, hn, he, atv2_ignore_of_ariaHidden hn ha]
  · simp [ATv1.getAccessibleText, hn, he, atv1_ignore_of_ariaHidden hn ha]

/-- Witness for C6: the aria-hidden fixture and the role-presentation
fixture (both of which also carry aria-label X) resolve to the empty
string in both variants. -/
theorem c6_aria_hidden_precedes_strategies_witness :
    (ATv2.getAccessibleText 1 exHidden qe0 [0, 0, 0] false = some "" ∧
     ATv1.getAccessibleText 1 exHidden qe0 [0, 0, 0] false = some "") ∧
    (ATv2.getAccessibleText 1 exRolePres qe0 [0, 0, 0] false = some "" ∧
     ATv1.getAccessibleText 1 exRolePres qe0 [0, 0, 0] false = some "") :=
  ⟨c6_aria_hidden_precedes_strategies 0 exHidden qe0 [0, 0, 0] false
     (mkEl "div" [⟨"aria-hidden", "true"⟩, ⟨"aria-label", "X"⟩] [])
     rfl rfl (Or.inl rfl),
   c6_aria_hidden_precedes_strategies 0 exRolePres qe0 [0, 0, 0] false
     (mkEl "div" [⟨"role", "presentation"⟩, ⟨"aria-label", "X"⟩] [])
     rfl rfl (Or.inr (Or.inl rfl))⟩

/-
Claim C1: authoritativeness of the aria-labelledby result.
-/

/-- Counterexample to C1 as stated: in the accessible-text.js variant,
the div of exDang declares aria-labelledby (whose resolution is empty
because the reference dangles), is not ignored and is not in a
labelledby context, yet the resolver falls through and returns the
aria-label value X instead of the empty labelledby result. -/
theorem c1_counterexample :
    (nodeAt exDang [0, 0, 0]).map (fun n => n.getAttrD "aria-labelledby")
      = some "missing" ∧
    ATv1.shouldIgnoreElement exDang [0, 0, 0] = .ok false ∧
    ATv1.arialabelledbyText 9 exDang qe0 [0, 0, 0] false = some "" ∧
    ATv1.getAccessibleText 10 exDang qe0 [0, 0, 0] false = some "X" ∧
    "X" ≠ "" :=
  ⟨rfl, rfl, rfl, rfl, by decide⟩

/-- Claim C1 amended: in the part_000 variant, for an element that
declares aria-labelledby with a non-empty value, is not ignored and is
not inside a labelledby context, the resolver returns exactly the
normalized labelledby result, even when that result is empty; the
accessible-text.js variant instead falls through to aria-label when the
result is empty, and both variants fall through when the attribute value
itself is empty. -/
theorem c1_labelledby_authoritative_amended (fuel : Nat) (d : Doc) (env : QEnv)
    (rp : Path) (n : DNode) (hn : nodeAt d rp = some n) (he : n.isElem = true)
    (hig : ATv2.shouldIgnoreElement d rp = false)
    (hattr : n.getAttrD "aria-labelledby" ≠ "") :
    ATv2.getAccessibleText (fuel + 1) d env rp false =
      (ATv2.arialabelledbyText fuel d env rp false).map normalizeText := by
  simp [ATv2.getAccessibleText, hn, he, hig, hattr]

/-- Witness for the amended C1: on the dangling-reference fixture the
part_000 resolver returns the empty labelledby result and does not fall
through to the aria-label value X. -/
theorem c1_labelledby_authoritative_amended_witness :
    ATv2.getAccessibleText 10 exDang qe0 [0, 0, 0] false =
      (ATv2.arialabelledbyText 9 exDang qe0 [0, 0, 0] false).map normalizeText ∧
    ATv2.getAccessibleText 10 exDang qe0 [0, 0, 0] false = some "" :=
  ⟨c1_labelledby_authoritative_amended 9 exDang qe0 [0, 0, 0]
    (mkEl "div" [⟨"aria-labelledby", "missing"⟩, ⟨"aria-label", "X"⟩] [])
    rfl rfl rfl (by decide), rfl⟩

/-
Claim C2: display none / visibility hidden as ignore conditions.
-/

/-- Counterexample to C2 as stated: in the accessible-text.js variant an
element whose computed style is display none is not treated as ignored;
with aria-label X it resolves to X instead of the empty string (the
style check in that variant deliberately returns false). -/
theorem c2_counterexample :
    (nodeAt exNoneStyle [0, 0, 0]).map DNode.style
      = some (.ok ⟨"none", "visible"⟩) ∧
    ATv1.shouldIgnoreElement exNoneStyle [0, 0, 0] = .ok false ∧
    ATv1.getAccessibleText 10 exNoneStyle qe0 [0, 0, 0] false = some "X" ∧
    "X" ≠ "" :=
  ⟨rfl, rfl, rfl, by decide⟩

/-- Claim C2 amended: in the part_000 variant, an element whose computed
style is display none or visibility hidden resolves to the empty string
immediately, before any naming strategy, and an element with display
contents (and no other ignore condition, in particular not visibility
hidden) is not ignored; the accessible-text.js variant never ignores on
computed style. -/
theorem c2_hidden_style_ignored_amended :
    (∀ (fuel : Nat) (d : Doc) (env : QEnv) (rp : Path) (ctx : Bool) (n : DNode)
      (st : ElemStyle), nodeAt d rp = some n → n.isElem = true →
      n.style = .ok st → (st.display = "none" ∨ st.visibility = "hidden") →
      ATv2.getAccessibleText (fuel + 1) d env rp ctx = some "") ∧
    (∀ (d : Doc) (rp : Path) (n : DNode) (st : ElemStyle),
      nodeAt d rp = some n → n.style = .ok st →
      ¬ n.getAttr "aria-hidden" = some "true" →
      ¬ n.getAttr "role" = some "presentation" →
      ¬ n.getAttr "role" = some "none" → st.display = "contents" →
      st.visibility ≠ "hidden" →
      ATv2.shouldIgnoreElement d rp = false) := by
  constructor
  · intro fuel d env rp ctx n st hn he hst hh
    simp [ATv2.getAccessibleText, hn, he, atv2_ignore_of_hidden_style hn hst hh]
  · intro d rp n st hn hst hah hr₁ hr₂ hdc hv
    exact atv2_not_ignored_contents hn hst hah hr₁ hr₂ hdc hv

/-- Witness for the amended C2: the display-none fixture resolves to the
empty string in the part_000 variant and the display-contents fixture is
not ignored. -/
theorem c2_hidden_style_ignored_amended_witness :
    ATv2.getAccessibleText 1 exNoneStyle qe0 [0, 0, 0] false = some "" ∧
    ATv2.shouldIgnoreElement exContents [0, 0, 0] = false :=
  ⟨c2_hidden_style_ignored_amended.1 0 exNoneStyle qe0 [0, 0, 0] false
      (.elem "div" [⟨"aria-label", "X"⟩] (.ok ⟨"none", "visible"⟩) okPs okPs [])
      ⟨"none", "visible"⟩ rfl rfl rfl (Or.inl rfl),
   c2_hidden_style_ignored_amended.2 exContents [0, 0, 0]
      (.elem "div" [] (.ok ⟨"contents", "visible"⟩) okPs okPs [.text "inner"])
      ⟨"contents", "visible"⟩ rfl rfl (by simp [DNode.getAttr, DNode.attrs])
      (by simp [DNode.getAttr, DNode.attrs]) (by simp [DNode.getAttr, DNode.attrs])
      rfl (by simp)⟩

/-
Claim C8: the resolver catches internal errors.
-/

/-- Claim C8: in the accessible-text.js variant (the one in which engine
errors reach the resolver), an exception thrown inside the resolution
body is caught and the resolver degrades to the whitespace-normalized
plain text content, or the title attribute, never propagating an
exception: both error paths (the unguarded style query of
shouldIgnoreElement and an error propagating out of
nativeTextAlternative) end in the degraded value.  In the part_000
variant every engine error is consumed locally, so nothing reaches its
identical catch. -/
theorem c8_resolver_catches_errors :
    (∀ (fuel : Nat) (d : Doc) (env : QEnv) (rp : Path) (ctx : Bool) (n : DNode)
      (e : String), nodeAt d rp = some n → n.isElem = true →
      ATv1.shouldIgnoreElement d rp = .error e →
      ATv1.getAccessibleText (fuel + 1) d env rp ctx =
        some (normalizeText (jsOrS (textContentN n) (jsOrS (n.getAttrD "title") "")))) ∧
    (∀ (fuel : Nat) (d : Doc) (env : QEnv) (rp : Path) (ctx : Bool) (n : DNode)
      (albr : String) (e : String), nodeAt d rp = some n → n.isElem = true →
      ATv1.shouldIgnoreElement d rp = .ok false →
      ATv1.arialabelledbyText fuel d env rp ctx = some albr →
      normalizeText albr = "" → normalizeText (arialabelText n) = "" →
      ATv1.nativeTextAlternative fuel d env rp = some (.error e) →
      ATv1.getAccessibleText (fuel + 1) d env rp ctx =
        some (normalizeText (jsOrS (textContentN n) (jsOrS (n.getAttrD "title") "")))) := by
  constructor
  · intro fuel d env rp ctx n e hn he hig
    simp [ATv1.getAccessibleText, hn, he, hig]
  · intro fuel d env rp ctx n albr e hn he hig halb hnorm hlbl hnta
    simp [ATv1.getAccessibleText, hn, he, hig, halb, hnorm, hlbl, hnta]

/-- Witness for C8: on the fixture whose style query throws, the
accessible-text.js resolver returns the normalized text content instead
of propagating the error. -/
theorem c8_resolver_catches_errors_witness :
    ATv1.getAccessibleText 1 exErrStyle qe0 [0, 0, 0] false = some "body text" := by
  have h := c8_resolver_catches_errors.1 0 exErrStyle qe0 [0, 0, 0] false
    (.elem "div" [⟨"aria-label", "X"⟩, ⟨"title", "T"⟩] (.error "style query failed")
      okPs okPs [.text "  body   text "])
    "style query failed" rfl rfl rfl
  rw [h]
  decide

/-
Claim C7: per-call deduplication of extracted elements.
-/

/-- Claim C7: in one extraction call every element identity appears at
most once in the emitted record order, whatever the engine returns for
each allowlist selector: the ProcessedSet suppresses every match after
the first, across all selector patterns. -/
theorem c7_extraction_dedup (queryFn : String → List Nat) :
    (extractLoop queryFn).Nodup := by
  have general : ∀ (sels : List String) (st : List Nat × List Nat),
      st.2.Nodup → (∀ x ∈ st.2, x ∈ st.1) →
      ((sels.foldl (fun (st : List Nat × List Nat) selector =>
        (queryFn selector).foldl (fun (st₂ : List Nat × List Nat) el =>
          if st₂.1.contains el then st₂
          else (el :: st₂.1, st₂.2 ++ [el])) st) st).2).Nodup := by
    intro sels
    induction sels with
    | nil => intro st h₁ _; exact h₁
    | cons s rest ih =>
      intro st h₁ h₂
      simp only [List.foldl_cons]
      have inner : ∀ (els : List Nat) (st₀ : List Nat × List Nat),
          st₀.2.Nodup → (∀ x ∈ st₀.2, x ∈ st₀.1) →
          ((els.foldl (fun (st₂ : List Nat × List Nat) el =>
            if st₂.1.contains el then st₂
            else (el :: st₂.1, st₂.2 ++ [el])) st₀).2).Nodup ∧
          (∀ x ∈ (els.foldl (fun (st₂ : List Nat × List Nat) el =>
            if st₂.1.contains el then st₂
            else (el :: st₂.1, st₂.2 ++ [el])) st₀).2,
            x ∈ (els.foldl (fun (st₂ : List Nat × List Nat) el =>
            if st₂.1.contains el then st₂
            else (el :: st₂.1, st₂.2 ++ [el])) st₀).1) := by
        intro els
        induction els with
        | nil => intro st₀ g₁ g₂; exact ⟨g₁, g₂⟩
        | cons el els ih₂ =>
          intro st₀ g₁ g₂
          simp only [List.foldl_cons]
          by_cases hc : st₀.1.contains el
          · rw [if_pos hc]
            exact ih₂ st₀ g₁ g₂
          · rw [if_neg hc]
            refine ih₂ (el :: st₀.1, st₀.2 ++ [el]) ?_ ?_
            · refine List.Nodup.append g₁ (List.nodup_singleton el) ?_
              intro x hx hxe
              rw [List.mem_singleton] at hxe
              subst hxe
              exact hc (List.elem_iff.mpr (g₂ x hx))
            · intro x hx
              rcases List.mem_append.mp hx with hx₁ | hx₂
              · exact List.mem_cons_of_mem _ (g₂ x hx₁)
              · rw [List.mem_singleton] at hx₂
                subst hx₂
                exact List.mem_cons_self _ _
      have hinner := inner (queryFn s) st h₁ h₂
      exact ih _ hinner.1 hinner.2
  have := general acctextSelectors ([], []) List.nodup_nil (by intro x hx; simp at hx)
  simpa [extractLoop, extractLoopOver] using this

/-
Claim C4: the selector-synthesis fallback.
-/

/-- Counterexample to C4 as stated: the fallback selector does consult
the frequency table.  The target div (same tag, attributes, classes and
position in both fixtures) receives different fallback selectors under
the two documents whose statistics differ only through unrelated span
elements: the rarest positive-count class is chosen from the table. -/
theorem c4_counterexample :
    origThrow [0, 0, 0] = .error "synthesis failed" ∧
    nodeAt exSelA [0, 0, 0] = nodeAt exSelB [0, 0, 0] ∧
    windowGetSelector exSelA (buildFullDomStatistics frNone escId exSelA)
      escId qcOne origThrow [0, 0, 0] = "body > div.b" ∧
    windowGetSelector exSelB (buildFullDomStatistics frNone escId exSelB)
      escId qcOne origThrow [0, 0, 0] = "body > div.a" :=
  ⟨rfl, rfl, by decide, by decide⟩

/-- Claim C4 amended: for every node on which the main
selector-synthesis path throws, window.getSelector falls back to the
hierarchical selector built by walking from the target node to the
root, computing tag[.class][attr][:nth-child(N)] at each level; the
walk does consult the frequency table, picking the rarest
positive-count class (and, when no class is used, the rarest
positive-count attribute). -/
theorem c4_fallback_on_throw_amended (d : Doc) (stats : SelectorData)
    (escf : String → String) (qc : String → Nat)
    (orig : Path → Except String String) (rp : Path) (e : String)
    (h : orig rp = .error e) :
    windowGetSelector d stats escf qc orig rp =
      generateHierarchicalSelector d stats escf qc rp := by
  simp [windowGetSelector, h]

/-- Witness for the amended C4: with the throwing original synthesis the
fallback result on the first selector fixture is the hierarchical
selector. -/
theorem c4_fallback_on_throw_amended_witness :
    windowGetSelector exSelA (buildFullDomStatistics frNone escId exSelA)
        escId qcOne origThrow [0, 0, 0] =
      generateHierarchicalSelector exSelA
        (buildFullDomStatistics frNone escId exSelA) escId qcOne [0, 0, 0] :=
  c4_fallback_on_throw_amended exSelA _ escId qcOne origThrow [0, 0, 0]
    "synthesis failed" rfl

/-
Claim C5: frequency-table lemmas.
-/

theorem lookupD_cons (n : String) (v : Nat) (rest : List (String × Nat))
    (k : String) :
    lookupD ((n, v) :: rest) k = if n = k then v else lookupD rest k := by
  by_cases h : n = k <;> simp [lookupD, List.find?, h]

theorem lookupD_map_bumpf (rest : List (String × Nat)) (k k' : String)
    (h : k ≠ k') :
    lookupD (rest.map (fun kv => if kv.1 = k' then (kv.1, kv.2 + 1) else kv)) k
      = lookupD rest k := by
  induction rest with
  | nil => rfl
  | cons kv rest ih =>
    obtain ⟨n, v⟩ := kv
    by_cases hk : n = k'
    · subst hk
      simp [lookupD_cons, Ne.symm h, ih]
    · simp [lookupD_cons, hk, ih]

theorem lookupD_bump (m : List (String × Nat)) (k k' : String) :
    lookupD (bump m k') k =
      if k = k' then lookupD m k + 1 else lookupD m k := by
  induction m with
  | nil =>
    by_cases h : k = k' <;>
      simp [bump, lookupD, List.find?, h, eq_comm]
  | cons kv rest ih =>
    obtain ⟨n, v⟩ := kv
    by_cases hn : n = k'
    · subst hn
      have hfind : ((n, v) :: rest).find? (fun kv => kv.1 = n) = some (n, v) := by
        simp [List.find?]
      simp only [bump, hfind, List.map_cons, if_pos rfl]
      by_cases hk : k = n
      · subst hk
        simp [lookupD_cons]
      · have hnk : ¬ n = k := fun e => hk e.symm
        simp [lookupD_cons, hnk, hk, lookupD_map_bumpf rest k n hk]
    · have hhead : (decide ((n, v).1 = k')) = false := by simp [hn]
      simp only [bump, List.find?, hhead]
      cases hf : rest.find? (fun kv => kv.1 = k') with
      | some kv₂ =>
        have hbr : bump rest k' =
            rest.map (fun kv => if kv.1 = k' then (kv.1, kv.2 + 1) else kv) := by
          simp [bump, hf]
        simp only [List.map_cons, hn, ite_false, if_neg]
        by_cases hnk : n = k
        · have hkk : ¬ k = k' := by rintro rfl; exact hn hnk
          simp [lookupD_cons, hnk, hkk]
        · rw [lookupD_cons, lookupD_cons, if_neg hnk, if_neg hnk, ← hbr, ih]
      | none =>
        have hbr : bump rest k' = rest ++ [(k', 1)] := by simp [bump, hf]
        rw [show ((n, v) :: rest) ++ [(k', 1)] = (n, v) :: (rest ++ [(k', 1)])
          from rfl]
        by_cases hnk : n = k
        · have hkk : ¬ k = k' := by rintro rfl; exact hn hnk
          simp [lookupD_cons, hnk, hkk]
        · rw [lookupD_cons, lookupD_cons, if_neg hnk, if_neg hnk, ← hbr, ih]

theorem lookupD_foldl_bump_mono (es : List String) (m : List (String × Nat))
    (k : String) : lookupD m k ≤ lookupD (es.foldl bump m) k := by
  induction es generalizing m with
  | nil => exact le_refl _
  | cons e rest ih =>
    refine le_trans ?_ (ih (bump m e))
    rw [lookupD_bump]
    by_cases h : k = e <;> simp [h]

theorem mem_foldl_bump_pos (es : List String) :
    ∀ (m : List (String × Nat)) (k : String), k ∈ es →
    0 < lookupD (es.foldl bump m) k := by
  induction es with
  | nil => intro m k hk; cases hk
  | cons e rest ih =>
    intro m k hk
    rcases List.mem_cons.mp hk with he | hr
    · subst he
      refine lt_of_lt_of_le ?_ (lookupD_foldl_bump_mono rest (bump m k) k)
      rw [lookupD_bump]
      simp
    · exact ih (bump m e) k hr

theorem classesFold_attributes (escf : String → String) (cls : List String)
    (dt : SelectorData) :
    (cls.foldl (fun dt cl => { dt with classes := bump dt.classes (escf cl) })
      dt).attributes = dt.attributes := by
  induction cls generalizing dt with
  | nil => rfl
  | cons c rest ih => simpa using ih _

theorem attrsFold_attributes (friendly escf : String → String) (n : DNode)
    (attrs : List DAttr) (dt : SelectorData) :
    ((attrs.foldl (fun dt a =>
      match attrEntry friendly escf n a with
      | some atnv => { dt with attributes := bump dt.attributes atnv }
      | none => dt) dt)).attributes =
      (attrs.filterMap (attrEntry friendly escf n)).foldl bump dt.attributes := by
  induction attrs generalizing dt with
  | nil => rfl
  | cons a rest ih =>
    simp only [List.foldl_cons, List.filterMap_cons]
    cases h : attrEntry friendly escf n a with
    | none => simpa [h] using ih dt
    | some atnv => simpa [h] using ih { dt with attributes := bump dt.attributes atnv }

theorem statStep_attributes (friendly escf : String → String)
    (dt : SelectorData) (n : DNode) :
    (statStep friendly escf dt n).attributes =
      (attrEntriesOf friendly escf n).foldl bump dt.attributes := by
  cases n with
  | text s => rfl
  | elem t as st pb pa cs =>
    simp only [statStep, DNode.isElem, Bool.not_true, Bool.false_eq_true,
      if_false, attrEntriesOf, DNode.attrs]
    by_cases hcl : (DNode.elem t as st pb pa cs).classList ≠ []
    · rw [if_pos hcl]
      by_cases has : as ≠ []
      · rw [if_pos has]
        rw [attrsFold_attributes]
        rw [classesFold_attributes]
      · rw [if_neg has]
        push_neg at has
        subst has
        rw [classesFold_attributes]
        rfl
    · rw [if_neg hcl]
      by_cases has : as ≠ []
      · rw [if_pos has]
        rw [attrsFold_attributes]
      · rw [if_neg has]
        push_neg at has
        subst has
        rfl

theorem statsFold_attributes_congr (friendly escf : String → String)
    (els : List DNode) : ∀ d₁ d₂ : SelectorData,
    d₁.attributes = d₂.attributes →
    (els.foldl (statStep friendly escf) d₁).attributes =
      (els.foldl (statStep friendly escf) d₂).attributes := by
  induction els with
  | nil => intro d₁ d₂ h; exact h
  | cons el rest ih =>
    intro d₁ d₂ h
    simp only [List.foldl_cons]
    refine ih _ _ ?_
    rw [statStep_attributes, statStep_attributes, h]

theorem statStep_attributes_mono (friendly escf : String → String)
    (dt : SelectorData) (n : DNode) (k : String) :
    lookupD dt.attributes k ≤ lookupD (statStep friendly escf dt n).attributes k := by
  rw [statStep_attributes]
  exact lookupD_foldl_bump_mono _ _ _

theorem statsFold_attributes_mono (friendly escf : String → String)
    (els : List DNode) (dt : SelectorData) (k : String) :
    lookupD dt.attributes k ≤
      lookupD ((els.foldl (statStep friendly escf) dt)).attributes k := by
  induction els generalizing dt with
  | nil => exact le_refl _
  | cons el rest ih =>
    exact le_trans (statStep_attributes_mono friendly escf dt el k) (ih _)

theorem find?_name_middle (pre post : List DAttr) (a : DAttr) (name : String)
    (h : name ≠ a.name) :
    (pre ++ a :: post).find? (fun b => b.name = name) =
      (pre ++ post).find? (fun b => b.name = name) := by
  induction pre with
  | nil =>
    simp only [List.nil_append, List.find?]
    rw [show (decide (a.name = name)) = false by simp [Ne.symm h]]
  | cons b rest ih =>
    simp only [List.cons_append, List.find?]
    cases hb : (decide (b.name = name)) with
    | true => rfl
    | false => exact ih

theorem getAttrD_middle (tag : String) (st : Except String ElemStyle)
    (pb pa : Except String PseudoStyle) (cs : List DNode)
    (pre post : List DAttr) (a : DAttr) (name : String) (h : name ≠ a.name) :
    (DNode.elem tag (pre ++ a :: post) st pb pa cs).getAttrD name =
      (DNode.elem tag (pre ++ post) st pb pa cs).getAttrD name := by
  simp only [DNode.getAttrD, DNode.getAttr, DNode.attrs]
  rw [find?_name_middle pre post a name h]

theorem attrEntry_middle (friendly escf : String → String) (tag : String)
    (st : Except String ElemStyle) (pb pa : Except String PseudoStyle)
    (cs : List DNode) (pre post : List DAttr) (a b : DAttr)
    (hb : b.name ≠ a.name) :
    attrEntry friendly escf (DNode.elem tag (pre ++ a :: post) st pb pa cs) b =
      attrEntry friendly escf (DNode.elem tag (pre ++ post) st pb pa cs) b := by
  simp only [attrEntry]
  rw [getAttrD_middle tag st pb pa cs pre post a b.name hb]

theorem attrEntry_none_of_excluded (friendly escf : String → String)
    (el : DNode) (a : DAttr)
    (h : ignoredAttributes.contains a.name = true ∨
      a.name.data.contains ':' = true ∨
      (a.value ≠ "" ∧ 31 ≤ a.value.length)) :
    attrEntry friendly escf el a = none := by
  unfold attrEntry
  by_cases hi : ignoredAttributes.contains a.name = true
  · rw [if_pos hi]
  · rw [if_neg hi]
    by_cases hc : a.name.data.contains ':' = true
    · rw [if_pos hc]
    · rw [if_neg hc]
      have hv : (a.value = "" || a.value.length < 31) = false := by
        rcases h with h₁ | h₂ | h₃
        · exact absurd h₁ hi
        · exact absurd h₂ hc
        · simp only [Bool.or_eq_false_iff, decide_eq_false_iff_not]
          exact ⟨h₃.1, by omega⟩
      rw [if_pos (by simp [hv] : (!(a.value = "" || a.value.length < 31)) = true)]

theorem attrEntriesOf_middle (friendly escf : String → String) (tag : String)
    (st : Except String ElemStyle) (pb pa : Except String PseudoStyle)
    (cs : List DNode) (pre post : List DAttr) (a : DAttr)
    (hex : ignoredAttributes.contains a.name = true ∨
      a.name.data.contains ':' = true ∨
      (a.value ≠ "" ∧ 31 ≤ a.value.length))
    (hdistinct : ∀ b ∈ pre ++ post, b.name ≠ a.name) :
    attrEntriesOf friendly escf (DNode.elem tag (pre ++ a :: post) st pb pa cs) =
      attrEntriesOf friendly escf (DNode.elem tag (pre ++ post) st pb pa cs) := by
  simp only [attrEntriesOf, DNode.attrs]
  rw [List.filterMap_append, List.filterMap_append, List.filterMap_cons]
  rw [attrEntry_none_of_excluded friendly escf _ a hex]
  congr 1
  · refine List.filterMap_congr ?_
    intro b hb
    exact attrEntry_middle friendly escf tag st pb pa cs pre post a b
      (hdistinct b (List.mem_append_left _ hb))
  · refine List.filterMap_congr ?_
    intro b hb
    exact attrEntry_middle friendly escf tag st pb pa cs pre post a b
      (hdistinct b (List.mem_append_right _ hb))

/-- Claim C5: during the statistics pass, an attribute in the exclusion
list, or with a namespace colon in its name, or with a non-empty value
of length at least 31 (the length ceiling), contributes no entry to the
attribute frequency table (removing it leaves the table unchanged,
assuming the DOM invariant that attribute names are unique per element);
and a counted attribute whose name contains href or src and for which a
friendly URI tail exists produces the suffix-match entry
name$="tail" (never the exact-match form), which is present with a
positive count in the table of any element list containing its
element. -/
theorem c5_statistics_attribute_filter :
    (∀ (friendly escf : String → String) (a : DAttr),
      (ignoredAttributes.contains a.name = true ∨
        a.name.data.contains ':' = true ∨
        (a.value ≠ "" ∧ 31 ≤ a.value.length)) →
      ∀ (tag : String) (st : Except String ElemStyle)
        (pb pa : Except String PseudoStyle) (cs : List DNode)
        (pre post : List DAttr) (before after : List DNode),
        (∀ b ∈ pre ++ post, b.name ≠ a.name) →
        (statsOfElems friendly escf
          (before ++ DNode.elem tag (pre ++ a :: post) st pb pa cs :: after)).attributes
          = (statsOfElems friendly escf
            (before ++ DNode.elem tag (pre ++ post) st pb pa cs :: after)).attributes) ∧
    (∀ (friendly escf : String → String) (el : DNode) (a : DAttr),
      ignoredAttributes.contains a.name = false →
      a.name.data.contains ':' = false →
      (a.value = "" ∨ a.value.length < 31) →
      (containsSub a.name "href" = true ∨ containsSub a.name "src" = true) →
      friendly (el.getAttrD a.name) ≠ "" →
      attrEntry friendly escf el a =
        some (escf a.name ++ "$=\"" ++
          escAttrValue (friendly (el.getAttrD a.name)) ++ "\"") ∧
      ∀ els : List DNode, el ∈ els → a ∈ el.attrs →
        0 < lookupD (statsOfElems friendly escf els).attributes
          (escf a.name ++ "$=\"" ++
            escAttrValue (friendly (el.getAttrD a.name)) ++ "\"")) := by
  constructor
  · intro friendly escf a hex tag st pb pa cs pre post before after hdistinct
    simp only [statsOfElems, List.foldl_append, List.foldl_cons]
    refine statsFold_attributes_congr friendly escf after _ _ ?_
    rw [statStep_attributes, statStep_attributes]
    rw [attrEntriesOf_middle friendly escf tag st pb pa cs pre post a hex hdistinct]
  · intro friendly escf el a hig hcol hlen hhs hfr
    have hentry : attrEntry friendly escf el a =
        some (escf a.name ++ "$=\"" ++
          escAttrValue (friendly (el.getAttrD a.name)) ++ "\"") := by
      have hv : (a.value = "" || a.value.length < 31) = true := by
        rcases hlen with h | h
        · simp [h]
        · simp [h]
      have hhs₂ : (containsSub a.name "href" || containsSub a.name "src") = true := by
        rcases hhs with h | h <;> simp [h]
      unfold attrEntry
      rw [if_neg (by rw [hig]; simp), if_neg (by rw [hcol]; simp),
        if_neg (by simp [hv] : ¬ (!(a.value = "" || a.value.length < 31)) = true),
        if_pos hhs₂, if_pos hfr]
    refine ⟨hentry, ?_⟩
    intro els hel ha
    obtain ⟨s, t, rfl⟩ := List.append_of_mem hel
    simp only [statsOfElems, List.foldl_append, List.foldl_cons]
    refine lt_of_lt_of_le ?_ (statsFold_attributes_mono friendly escf t _ _)
    rw [statStep_attributes]
    refine mem_foldl_bump_pos _ _ _ ?_
    simp only [attrEntriesOf]
    exact List.mem_filterMap.mpr ⟨a, ha, hentry⟩

/-- Witness for C5: removing the excluded style attribute leaves the
table unchanged on a concrete element, and the counted short href with a
friendly tail contributes the suffix-match entry with positive count. -/
theorem c5_statistics_attribute_filter_witness :
    (statsOfElems frNone escId
        [mkEl "div" [⟨"data-x", "v"⟩, ⟨"style", "color:red"⟩] []]).attributes
      = (statsOfElems frNone escId [mkEl "div" [⟨"data-x", "v"⟩] []]).attributes ∧
    attrEntry frTail escId exStatsAnchor ⟨"href", "https://ex.co/a/page.html"⟩
      = some "href$=\"page.html\"" ∧
    0 < lookupD (statsOfElems frTail escId [exStatsAnchor]).attributes
      "href$=\"page.html\"" := by
  refine ⟨?_, ?_, ?_⟩
  · exact c5_statistics_attribute_filter.1 frNone escId ⟨"style", "color:red"⟩
      (Or.inl (by decide)) "div" okSt okPs okPs [] [⟨"data-x", "v"⟩] [] [] []
      (by decide)
  · have h := (c5_statistics_attribute_filter.2 frTail escId exStatsAnchor
      ⟨"href", "https://ex.co/a/page.html"⟩ (by decide) (by decide)
      (Or.inr (by decide)) (Or.inl (by decide)) (by decide)).1
    rw [h]
    decide
  · have h := (c5_statistics_attribute_filter.2 frTail escId exStatsAnchor
      ⟨"href", "https://ex.co/a/page.html"⟩ (by decide) (by decide)
      (Or.inr (by decide)) (Or.inl (by decide)) (by decide)).2
      [exStatsAnchor] (List.mem_singleton.mpr rfl) (by decide)
    have he : (escId "href" ++ "$=\"" ++
        escAttrValue (frTail (exStatsAnchor.getAttrD "href")) ++ "\"")
        = "href$=\"page.html\"" := by decide
    rw [he] at h
    exact h

/-
Claim C3: path-membership and evaluation lemmas for the XPath
synthesizer.
-/

theorem nodeAt_eq_nodeAtF (d : Doc) : ∀ q : Path, nodeAt d q = nodeAtF d.childNodes q := by
  intro q
  induction q with
  | nil => rfl
  | cons i rp ih =>
    cases rp with
    | nil => rfl
    | cons j rp' =>
      show (match nodeAt d (j :: rp') with
        | some (.elem _ _ _ _ _ cs) => cs.get? i
        | _ => none) = (match nodeAtF d.childNodes (j :: rp') with
        | some (.elem _ _ _ _ _ cs) => cs.get? i
        | _ => none)
      rw [ih]

theorem nodeAt_cons (d : Doc) (j : Nat) (ctx : Path) :
    nodeAt d (j :: ctx) = (childNodesAt d ctx).get? j := by
  cases ctx with
  | nil => rfl
  | cons c ctx' =>
    show (match nodeAt d (c :: ctx') with
      | some (.elem _ _ _ _ _ cs) => cs.get? j
      | _ => none) = (childNodesAt d (c :: ctx')).get? j
    cases hn : nodeAt d (c :: ctx') with
    | none => simp [childNodesAt, hn]
    | some n =>
      cases n with
      | elem t as st pb pa cs => simp [childNodesAt, hn, DNode.childNodes]
      | text s => simp [childNodesAt, hn, DNode.childNodes]

theorem elemPathsL_mem_of_get (cs : List DNode) :
    ∀ (rp₀ : Path) (k i : Nat) (p : DNode), cs.get? i = some p →
    ∀ x ∈ elemPathsN p ((k + i) :: rp₀), x ∈ elemPathsL cs rp₀ k := by
  induction cs with
  | nil => intro rp₀ k i p hp; simp at hp
  | cons c rest ih =>
    intro rp₀ k i p hp x hx
    cases i with
    | zero =>
      simp only [List.get?] at hp
      cases hp
      simp only [elemPathsL]
      exact List.mem_append_left _ (by simpa using hx)
    | succ i' =>
      simp only [List.get?] at hp
      have := ih rp₀ (k + 1) i' p hp x (by
        have harith : k + 1 + i' = k + (i' + 1) := by omega
        rwa [harith])
      exact List.mem_append_right _ this

theorem elemPathsN_closure (q : Path) : ∀ (cs : List DNode) (rp₀ : Path)
    (p : DNode), nodeAtF cs q = some p → p.isElem = true →
    ∀ x ∈ elemPathsN p (q ++ rp₀), x ∈ elemPathsL cs rp₀ 0 := by
  induction q with
  | nil => intro cs rp₀ p hp; simp [nodeAtF] at hp
  | cons i q' ih =>
    intro cs rp₀ p hp he x hx
    cases q' with
    | nil =>
      have hg : cs.get? i = some p := hp
      have := elemPathsL_mem_of_get cs rp₀ 0 i p hg x (by simpa using hx)
      exact this
    | cons j q'' =>
      have hshape : ∃ t as st pb pa cs',
          nodeAtF cs (j :: q'') = some (.elem t as st pb pa cs') ∧
          cs'.get? i = some p := by
        revert hp
        show (match nodeAtF cs (j :: q'') with
          | some (.elem _ _ _ _ _ cs') => cs'.get? i
          | _ => none) = some p → _
        cases hn : nodeAtF cs (j :: q'') with
        | none => intro h; cases h
        | some m =>
          cases m with
          | text s => intro h; cases h
          | elem t as st pb pa cs' =>
            intro h
            exact ⟨t, as, st, pb, pa, cs', rfl, h⟩
      obtain ⟨t, as, st, pb, pa, cs', hparent, hget⟩ := hshape
      have hx' : x ∈ elemPathsN (.elem t as st pb pa cs') ((j :: q'') ++ rp₀) := by
        simp only [elemPathsN]
        refine List.mem_cons_of_mem _ ?_
        have := elemPathsL_mem_of_get cs' ((j :: q'') ++ rp₀) 0 i p hget x (by
          simpa using hx)
        exact this
      exact ih cs rp₀ (.elem t as st pb pa cs') hparent rfl x hx'

theorem mem_allElemPaths_of_nodeAt {d : Doc} {q : Path} {p : DNode}
    (hp : nodeAt d q = some p) (he : p.isElem = true) :
    q ∈ allElemPaths d := by
  rw [nodeAt_eq_nodeAtF] at hp
  have hq : q ∈ elemPathsN p (q ++ []) := by
    cases p with
    | text s => simp [DNode.isElem] at he
    | elem t as st pb pa cs => simp [elemPathsN]
  exact elemPathsN_closure q d.childNodes [] p hp he q hq

theorem evalXPath_append (d : Doc) (segs : List XSeg) (seg : XSeg) :
    evalXPath d (segs ++ [seg]) =
      (evalXPath d segs).flatMap (fun ctx => segChildSelect d ctx seg) := by
  simp [evalXPath, List.foldl_append]

theorem segChildSelect_id_mem {d : Doc} {ctx : Path} {seg : XSeg}
    {idv : String} {q : Path} (hid : seg.id = some idv)
    (hq : q ∈ segChildSelect d ctx seg) :
    ∃ (j : Nat) (n : DNode), q = j :: ctx ∧ nodeAt d (j :: ctx) = some n ∧
      n.isElem = true ∧ n.getAttr "id" = some idv := by
  simp only [segChildSelect, hid] at hq
  rcases List.mem_map.mp hq with ⟨j, hj, rfl⟩
  have hj₂ := List.mem_filter.mp hj
  have hj₃ := List.mem_filter.mp hj₂.1
  refine ⟨j, ?_⟩
  cases hg : (childNodesAt d ctx).get? j with
  | none =>
    exfalso
    have := hj₃.2
    rw [hg] at this
    simp at this
  | some n =>
    have hname := hj₃.2
    have hidp := hj₂.2
    rw [hg] at hname hidp
    simp only [Bool.and_eq_true, decide_eq_true_eq] at hname hidp
    exact ⟨n, rfl, by rw [nodeAt_cons]; exact hg, hname.1, by
      simpa using hidp⟩

theorem getAttr_some_hasAttr {n : DNode} {name v : String}
    (h : n.getAttr name = some v) : n.hasAttr name = true := by
  simp only [DNode.getAttr] at h
  cases hf : n.attrs.find? (fun a => a.name = name) with
  | none => rw [hf] at h; cases h
  | some a => simp [DNode.hasAttr, hf]

theorem getAttrD_of_getAttr {n : DNode} {name v : String}
    (h : n.getAttr name = some v) : n.getAttrD name = v := by
  simp [DNode.getAttrD, h]

theorem filter_length_one_unique {α : Type} (l : List α) (p : α → Bool)
    (a b : α) (hlen : (l.filter p).length = 1) (ha : a ∈ l)
    (hpa : p a = true) (hb : b ∈ l) (hpb : p b = true) : a = b := by
  obtain ⟨x, hx⟩ := List.length_eq_one.mp hlen
  have hax : a ∈ l.filter p := List.mem_filter.mpr ⟨ha, hpa⟩
  have hbx : b ∈ l.filter p := List.mem_filter.mpr ⟨hb, hpb⟩
  rw [hx] at hax hbx
  rw [List.mem_singleton.mp hax, List.mem_singleton.mp hbx]

/-- Counterexample to C3 as stated: in exXp1 the span has the
document-unique id x (the uniqueness premise holds), yet the synthesized
path has four segments, its first segment (html) carries no id at all
(the upward walk did not terminate at the id segment), and evaluating
the path against the document yields no element at all (the ancestor div
has class "a b", and its serialized predicate [@class=(first token)]
matches nothing), in particular not the span. -/
theorem c3_counterexample :
    (nodeAt exXp1 [0, 0, 0, 0]).map (fun n => n.getAttr "id")
      = some (some "x") ∧
    escId "x" ≠ "" ∧
    countIdMatchesEsc exXp1 escId (escId "x") = 1 ∧
    (getXPathArray exXp1 escId [0, 0, 0, 0]).length = 4 ∧
    ((getXPathArray exXp1 escId [0, 0, 0, 0]).head?.map XSeg.id)
      = some none ∧
    evalXPath exXp1 (getXPathArray exXp1 escId [0, 0, 0, 0]) = [] :=
  ⟨rfl, by decide, rfl, rfl, rfl, rfl⟩

/-- Claim C3 amended: for every element carrying an id whose escaped id
lookup yields exactly one match, the synthesized path records the id in
that element's own segment (the id takes serialization priority in that
segment), but the upward ancestor walk continues to the document root
(one segment per element ancestor); and evaluation of the resulting path
matches no element other than the target: every evaluation result equals
the target path (the path can also resolve to nothing, as the
counterexample shows). -/
theorem c3_xpath_unique_id_amended (d : Doc) (escf : String → String)
    (rp : Path) (n : DNode) (idv : String) (hn : nodeAt d rp = some n)
    (he : n.isElem = true) (hid : n.getAttr "id" = some idv)
    (hesc : escf idv ≠ "")
    (hu : countIdMatchesEsc d escf (escf idv) = 1) :
    (∃ seg : XSeg, getXPathArray d escf rp =
      getXPathArray d escf rp.tail ++ [seg] ∧ seg.id = some idv ∧
      seg.str = n.tag) ∧
    (∀ q ∈ evalXPath d (getXPathArray d escf rp), q = rp) := by
  have hD : n.getAttrD "id" = idv := getAttrD_of_getAttr hid
  constructor
  · cases rp with
    | nil => simp [nodeAt] at hn
    | cons i rp' =>
      refine ⟨mkXSeg d escf i rp' n, ?_, ?_, rfl⟩
      · simp [getXPathArray, hn, he]
      · simp [mkXSeg, hD, hesc, hu]
  · intro q hq
    cases rp with
    | nil => simp [nodeAt] at hn
    | cons i rp' =>
      have harr : getXPathArray d escf (i :: rp') =
          getXPathArray d escf rp' ++ [mkXSeg d escf i rp' n] := by
        simp [getXPathArray, hn, he]
      rw [harr, evalXPath_append] at hq
      rcases List.mem_flatMap.mp hq with ⟨ctx, _, hsel⟩
      have hsegid : (mkXSeg d escf i rp' n).id = some idv := by
        simp [mkXSeg, hD, hesc, hu]
      obtain ⟨j, m, rfl, hm, hme, hmid⟩ := segChildSelect_id_mem hsegid hsel
      -- both the target and the selected element carry the raw id, hence
      -- both pass the escaped-id filter, whose match list has length one
      refine filter_length_one_unique (allElemPaths d)
        (fun q => match nodeAt d q with
          | some n => n.hasAttr "id" && escf (n.getAttrD "id") = escf idv
          | none => false) (j :: ctx) (i :: rp') hu ?_ ?_ ?_ ?_
      · exact mem_allElemPaths_of_nodeAt hm hme
      · simp [hm, getAttr_some_hasAttr hmid, getAttrD_of_getAttr hmid]
      · exact mem_allElemPaths_of_nodeAt hn he
      · simp [hn, getAttr_some_hasAttr hid, hD]

/-- Witness for the amended C3: on the clean fixture the span segment
carries the id and the evaluation result set is exactly the target. -/
theorem c3_xpath_unique_id_amended_witness :
    ((∃ seg : XSeg, getXPathArray exXp2 escId [0, 0, 0] =
      getXPathArray exXp2 escId [0, 0] ++ [seg] ∧ seg.id = some "x" ∧
      seg.str = "span") ∧
    (∀ q ∈ evalXPath exXp2 (getXPathArray exXp2 escId [0, 0, 0]),
      q = [0, 0, 0])) ∧
    evalXPath exXp2 (getXPathArray exXp2 escId [0, 0, 0]) = [[0, 0, 0]] :=
  ⟨c3_xpath_unique_id_amended exXp2 escId [0, 0, 0]
    (mkEl "span" [⟨"id", "x"⟩] [.text "hi"]) "x" rfl rfl rfl (by decide) rfl,
   rfl⟩

/-
Claim C10: termination of accessible-name resolution.  In the fueled
embedding, termination is stabilization: from some fuel on, the resolver
returns one fixed defined value.  The development below proves this for
every document, engine, path and context flag, for both variants, by
strong induction on the subtree measure of the path.
-/

theorem sizeN_le_sizeL_of_get {cs : List DNode} {j : Nat} {c : DNode}
    (h : cs.get? j = some c) : sizeN c ≤ sizeL cs := by
  induction cs generalizing j with
  | nil => cases j <;> exact Option.noConfusion h
  | cons a rest ih =>
    cases j with
    | zero =>
      rw [List.get?_cons_zero, Option.some_inj] at h
      subst h
      simp [sizeL]
    | succ j' =>
      rw [List.get?_cons_succ] at h
      calc sizeN c ≤ sizeL rest := ih h
        _ ≤ sizeL (a :: rest) := by simp [sizeL]

theorem nodeAt_child {d : Doc} {rp : Path} {j : Nat} {c : DNode}
    (h : (childNodesAt d rp).get? j = some c) : nodeAt d (j :: rp) = some c := by
  cases rp with
  | nil =>
    rw [show nodeAt d [j] = d.childNodes.get? j from rfl]
    exact h
  | cons i rs =>
    simp only [childNodesAt] at h
    rw [show nodeAt d (j :: i :: rs) =
      (match nodeAt d (i :: rs) with
       | some (.elem _ _ _ _ _ cs') => cs'.get? j
       | _ => none) from rfl]
    cases hn : nodeAt d (i :: rs) with
    | none => rw [hn] at h; exact Option.noConfusion h
    | some n =>
      rw [hn] at h
      cases n with
      | text s => exact Option.noConfusion h
      | elem t as st pb pa cs => exact h

theorem pathMeasure_child_lt {d : Doc} {rp : Path} {j : Nat} {c : DNode}
    (h : (childNodesAt d rp).get? j = some c) :
    pathMeasure d (j :: rp) < pathMeasure d rp := by
  have hc := nodeAt_child h
  cases rp with
  | nil =>
    have hle : sizeN c ≤ sizeL d.childNodes := sizeN_le_sizeL_of_get h
    have h1 : pathMeasure d [j] = sizeN c := by simp only [pathMeasure, hc]
    have h2 : pathMeasure d ([] : Path) = sizeL d.childNodes + 1 := rfl
    rw [h1, h2]
    omega
  | cons i rs =>
    simp only [childNodesAt] at h
    cases hn : nodeAt d (i :: rs) with
    | none => rw [hn] at h; exact Option.noConfusion h
    | some n =>
      rw [hn] at h
      cases n with
      | text s => exact Option.noConfusion h
      | elem t as st pb pa cs =>
        have hle : sizeN c ≤ sizeL cs := sizeN_le_sizeL_of_get h
        simp only [pathMeasure, hc, hn, sizeN]
        omega

theorem stabO_of_key {α : Type} {f : Nat → Option α} (N : Nat)
    (hdef : ∃ s, f N = some s) (hkey : ∀ m, N ≤ m → f m = f N) :
    StabO f := by
  obtain ⟨s, hs⟩ := hdef
  exact ⟨N, s, fun m hm => (hkey m hm).trans hs⟩

theorem stab_ccanPiece2_of {d : Doc} {env : QEnv} {rp : Path} {depth j : Nat}
    {child : DNode}
    (hGT : StabO (fun m => ATv2.getAccessibleText m d env (j :: rp) true))
    (hCC : StabO (fun m =>
      ATv2.computeChildAccessibleName m d env (j :: rp) (depth + 1))) :
    StabO (fun m => ATv2.ccanPiece m d env rp depth j child) := by
  obtain ⟨Ng, vg, hg⟩ := hGT
  obtain ⟨Nc, vc, hc⟩ := hCC
  refine stabO_of_key (Ng + Nc + 1) ?_ ?_
  · show ∃ s, ATv2.ccanPiece (Ng + Nc + 1) d env rp depth j child = some s
    simp only [ATv2.ccanPiece]
    simp only [hg (Ng + Nc) (by omega), hc (Ng + Nc) (by omega),
      Option.map_some']
    repeat' split
    all_goals first
      | exact ⟨_, rfl⟩
      | simp_all
  · intro m hm
    show ATv2.ccanPiece m d env rp depth j child =
      ATv2.ccanPiece (Ng + Nc + 1) d env rp depth j child
    obtain ⟨k, rfl⟩ := Nat.exists_eq_add_of_le hm
    rw [show Ng + Nc + 1 + k = (Ng + Nc + k) + 1 by omega]
    simp only [ATv2.ccanPiece]
    simp only [hg (Ng + Nc + k) (by omega), hg (Ng + Nc) (by omega),
      hc (Ng + Nc + k) (by omega), hc (Ng + Nc) (by omega)]

theorem stab_ccanChildren2_of {d : Doc} {env : QEnv} {rp : Path} {depth : Nat}
    (hP : ∀ j child, (childNodesAt d rp).get? j = some child →
      StabO (fun m => ATv2.ccanPiece m d env rp depth j child)) :
    ∀ idxs, StabO (fun m => ATv2.ccanChildren m d env rp depth idxs) := by
  intro idxs
  induction idxs with
  | nil =>
    refine ⟨1, "", ?_⟩
    intro m hm
    obtain ⟨k, rfl⟩ := Nat.exists_eq_add_of_le hm
    rw [show 1 + k = k + 1 by omega]
    simp only [ATv2.ccanChildren]
  | cons j rest ih =>
    obtain ⟨Nr, vr, hr⟩ := ih
    cases hget : (childNodesAt d rp).get? j with
    | none =>
      refine ⟨Nr + 1, vr, ?_⟩
      intro m hm
      obtain ⟨k, rfl⟩ := Nat.exists_eq_add_of_le hm
      rw [show Nr + 1 + k = (Nr + k) + 1 by omega]
      simp only [ATv2.ccanChildren, hget, hr (Nr + k) (by omega)]
    | some child =>
      obtain ⟨Np, vp, hp⟩ := hP j child hget
      refine ⟨Np + Nr + 1, vp ++ vr, ?_⟩
      intro m hm
      obtain ⟨k, rfl⟩ := Nat.exists_eq_add_of_le hm
      rw [show Np + Nr + 1 + k = (Np + Nr + k) + 1 by omega]
      simp only [ATv2.ccanChildren, hget, hp (Np + Nr + k) (by omega),
        hr (Np + Nr + k) (by omega)]

theorem stab_ccan2_of {d : Doc} {env : QEnv} {rp : Path} {depth : Nat}
    (hCh : StabO (fun m => ATv2.ccanChildren m d env rp depth
      (List.range (childNodesAt d rp).length))) :
    StabO (fun m => ATv2.computeChildAccessibleName m d env rp depth) := by
  obtain ⟨Nc, vc, hc⟩ := hCh
  refine stabO_of_key (Nc + 1) ?_ ?_
  · show ∃ s, ATv2.computeChildAccessibleName (Nc + 1) d env rp depth = some s
    simp only [ATv2.computeChildAccessibleName]
    simp only [hc Nc (Nat.le_refl _)]
    repeat' split
    all_goals first
      | exact ⟨_, rfl⟩
      | simp_all
  · intro m hm
    show ATv2.computeChildAccessibleName m d env rp depth =
      ATv2.computeChildAccessibleName (Nc + 1) d env rp depth
    obtain ⟨k, rfl⟩ := Nat.exists_eq_add_of_le hm
    rw [show Nc + 1 + k = (Nc + k) + 1 by omega]
    simp only [ATv2.computeChildAccessibleName]
    simp only [hc (Nc + k) (by omega), hc Nc (by omega)]

theorem stab_grsn2_of_ccan {d : Doc} {env : QEnv} {rp : Path}
    (hC : StabO (fun m => ATv2.computeChildAccessibleName m d env rp 0)) :
    StabO (fun m => ATv2.getRoleSpecificName m d env rp) := by
  obtain ⟨Nc, vc, hc⟩ := hC
  refine stabO_of_key (Nc + 1) ?_ ?_
  · show ∃ s, ATv2.getRoleSpecificName (Nc + 1) d env rp = some s
    simp only [ATv2.getRoleSpecificName]
    simp only [hc Nc (Nat.le_refl _), Option.map_some']
    repeat' split
    all_goals first
      | exact ⟨_, rfl⟩
      | simp_all
  · intro m hm
    show ATv2.getRoleSpecificName m d env rp =
      ATv2.getRoleSpecificName (Nc + 1) d env rp
    obtain ⟨k, rfl⟩ := Nat.exists_eq_add_of_le hm
    have he : Nc + 1 + k = (Nc + k) + 1 := by omega
    rw [he]
    simp only [ATv2.getRoleSpecificName]
    simp only [hc (Nc + k) (by omega), hc Nc (by omega)]

theorem stab_nta2_of {d : Doc} {env : QEnv} {rp : Path}
    (hG : StabO (fun m => ATv2.getRoleSpecificName m d env rp))
    (hC : StabO (fun m => ATv2.computeChildAccessibleName m d env rp 0)) :
    StabO (fun m => ATv2.nativeTextAlternative m d env rp) := by
  obtain ⟨Ng, vg, hg⟩ := hG
  obtain ⟨Nc, vc, hc⟩ := hC
  refine stabO_of_key (Ng + Nc + 1) ?_ ?_
  · show ∃ s, ATv2.nativeTextAlternative (Ng + Nc + 1) d env rp = some s
    simp only [ATv2.nativeTextAlternative]
    simp only [hg (Ng + Nc) (by omega), hc (Ng + Nc) (by omega),
      Option.map_some']
    repeat' split
    all_goals first
      | exact ⟨_, rfl⟩
      | simp_all
  · intro m hm
    show ATv2.nativeTextAlternative m d env rp =
      ATv2.nativeTextAlternative (Ng + Nc + 1) d env rp
    obtain ⟨k, rfl⟩ := Nat.exists_eq_add_of_le hm
    rw [show Ng + Nc + 1 + k = (Ng + Nc + k) + 1 by omega]
    simp only [ATv2.nativeTextAlternative]
    simp only [hg (Ng + Nc + k) (by omega), hg (Ng + Nc) (by omega),
      hc (Ng + Nc + k) (by omega), hc (Ng + Nc) (by omega)]

theorem stab_gatTrue2_of {d : Doc} {env : QEnv} {rp : Path}
    (hN : StabO (fun m => ATv2.nativeTextAlternative m d env rp)) :
    StabO (fun m => ATv2.getAccessibleText m d env rp true) := by
  obtain ⟨Nn, vn, hn⟩ := hN
  refine stabO_of_key (Nn + 1) ?_ ?_
  · show ∃ s, ATv2.getAccessibleText (Nn + 1) d env rp true = some s
    simp only [ATv2.getAccessibleText, Bool.not_true, Bool.false_and,
      Bool.false_eq_true, if_false]
    simp only [hn Nn (Nat.le_refl _), Option.map_some']
    repeat' split
    all_goals first
      | exact ⟨_, rfl⟩
      | simp_all
  · intro m hm
    show ATv2.getAccessibleText m d env rp true =
      ATv2.getAccessibleText (Nn + 1) d env rp true
    obtain ⟨k, rfl⟩ := Nat.exists_eq_add_of_le hm
    rw [show Nn + 1 + k = (Nn + k) + 1 by omega]
    simp only [ATv2.getAccessibleText, Bool.not_true, Bool.false_and,
      Bool.false_eq_true, if_false]
    simp only [hn (Nn + k) (by omega), hn Nn (by omega)]

theorem sizeN_pos (n : DNode) : 1 ≤ sizeN n := by
  cases n <;> simp [sizeN]

theorem pathMeasure_pos (d : Doc) (rp : Path) : 1 ≤ pathMeasure d rp := by
  unfold pathMeasure
  split
  · exact sizeN_pos _
  · omega

theorem stab2_below (d : Doc) (env : QEnv) :
    ∀ n rp, pathMeasure d rp ≤ n →
      (∀ depth,
        StabO (fun m => ATv2.computeChildAccessibleName m d env rp depth)) ∧
      StabO (fun m => ATv2.nativeTextAlternative m d env rp) ∧
      StabO (fun m => ATv2.getAccessibleText m d env rp true) := by
  intro n
  induction n with
  | zero =>
    intro rp h
    exact absurd h (by have := pathMeasure_pos d rp; omega)
  | succ n ih =>
    intro rp hpm
    have hCcan : ∀ depth,
        StabO (fun m => ATv2.computeChildAccessibleName m d env rp depth) := by
      intro depth
      refine stab_ccan2_of (stab_ccanChildren2_of ?_ _)
      intro j child hget
      have hlt := pathMeasure_child_lt hget
      have hsub := ih (j :: rp) (by omega)
      exact stab_ccanPiece2_of hsub.2.2 (hsub.1 (depth + 1))
    have hNta := stab_nta2_of (stab_grsn2_of_ccan (hCcan 0)) (hCcan 0)
    exact ⟨hCcan, hNta, stab_gatTrue2_of hNta⟩

theorem stab2_path (d : Doc) (env : QEnv) (rp : Path) :
    (∀ depth,
      StabO (fun m => ATv2.computeChildAccessibleName m d env rp depth)) ∧
    StabO (fun m => ATv2.nativeTextAlternative m d env rp) ∧
    StabO (fun m => ATv2.getAccessibleText m d env rp true) :=
  stab2_below d env (pathMeasure d rp) rp (Nat.le_refl _)

theorem stab_albRefs2 (d : Doc) (env : QEnv) :
    ∀ refs, StabO (fun m => ATv2.albRefs m d env refs) := by
  intro refs
  induction refs with
  | nil =>
    refine ⟨1, [], ?_⟩
    intro m hm
    obtain ⟨k, rfl⟩ := Nat.exists_eq_add_of_le hm
    rw [show 1 + k = k + 1 by omega]
    simp only [ATv2.albRefs]
  | cons q rest ih =>
    obtain ⟨Nr, vr, hr⟩ := ih
    obtain ⟨Ng, vg, hg⟩ := (stab2_path d env q).2.2
    refine ⟨Ng + Nr + 1, trimS vg :: vr, ?_⟩
    intro m hm
    obtain ⟨k, rfl⟩ := Nat.exists_eq_add_of_le hm
    rw [show Ng + Nr + 1 + k = (Ng + Nr + k) + 1 by omega]
    simp only [ATv2.albRefs, hg (Ng + Nr + k) (by omega),
      hr (Ng + Nr + k) (by omega)]

theorem stab_alb2 (d : Doc) (env : QEnv) (rp : Path) (ctx : Bool) :
    StabO (fun m => ATv2.arialabelledbyText m d env rp ctx) := by
  cases hnode : nodeAt d rp with
  | none =>
    refine ⟨1, "", ?_⟩
    intro m hm
    obtain ⟨k, rfl⟩ := Nat.exists_eq_add_of_le hm
    rw [show 1 + k = k + 1 by omega]
    simp only [ATv2.arialabelledbyText, hnode]
  | some el =>
    obtain ⟨Na, va, ha⟩ := stab_albRefs2 d env
      (albReferenced d env (el.getAttrD "aria-labelledby"))
    refine stabO_of_key (Na + 1) ?_ ?_
    · show ∃ s, ATv2.arialabelledbyText (Na + 1) d env rp ctx = some s
      simp only [ATv2.arialabelledbyText, hnode]
      simp only [ha Na (Nat.le_refl _)]
      repeat' split
      all_goals exact ⟨_, rfl⟩
    · intro m hm
      show ATv2.arialabelledbyText m d env rp ctx =
        ATv2.arialabelledbyText (Na + 1) d env rp ctx
      obtain ⟨k, rfl⟩ := Nat.exists_eq_add_of_le hm
      rw [show Na + 1 + k = (Na + k) + 1 by omega]
      simp only [ATv2.arialabelledbyText, hnode]
      simp only [ha (Na + k) (by omega), ha Na (by omega)]

theorem stab_gat2 (d : Doc) (env : QEnv) (rp : Path) (ctx : Bool) :
    StabO (fun m => ATv2.getAccessibleText m d env rp ctx) := by
  obtain ⟨Na, va, ha⟩ := stab_alb2 d env rp ctx
  obtain ⟨Nn, vn, hn⟩ := (stab2_path d env rp).2.1
  refine stabO_of_key (Na + Nn + 1) ?_ ?_
  · show ∃ s, ATv2.getAccessibleText (Na + Nn + 1) d env rp ctx = some s
    simp only [ATv2.getAccessibleText]
    simp only [ha (Na + Nn) (by omega), hn (Na + Nn) (by omega),
      Option.map_some']
    repeat' split
    all_goals first
      | exact ⟨_, rfl⟩
      | simp_all
  · intro m hm
    show ATv2.getAccessibleText m d env rp ctx =
      ATv2.getAccessibleText (Na + Nn + 1) d env rp ctx
    obtain ⟨k, rfl⟩ := Nat.exists_eq_add_of_le hm
    rw [show Na + Nn + 1 + k = (Na + Nn + k) + 1 by omega]
    simp only [ATv2.getAccessibleText]
    simp only [ha (Na + Nn + k) (by omega), ha (Na + Nn) (by omega),
      hn (Na + Nn + k) (by omega), hn (Na + Nn) (by omega)]

theorem stab_ccanPiece1_of {d : Doc} {env : QEnv} {rp : Path} {depth j : Nat}
    {child : DNode}
    (hCC : StabO (fun m =>
      ATv1.computeChildAccessibleName m d env (j :: rp) (depth + 1))) :
    StabO (fun m => ATv1.ccanPiece m d env rp depth j child) := by
  obtain ⟨Nc, vc, hc⟩ := hCC
  refine stabO_of_key (Nc + 1) ?_ ?_
  · show ∃ s, ATv1.ccanPiece (Nc + 1) d env rp depth j child = some s
    simp only [ATv1.ccanPiece]
    simp only [hc Nc (Nat.le_refl _)]
    repeat' split
    all_goals first
      | exact ⟨_, rfl⟩
      | simp_all
  · intro m hm
    show ATv1.ccanPiece m d env rp depth j child =
      ATv1.ccanPiece (Nc + 1) d env rp depth j child
    obtain ⟨k, rfl⟩ := Nat.exists_eq_add_of_le hm
    rw [show Nc + 1 + k = (Nc + k) + 1 by omega]
    simp only [ATv1.ccanPiece]
    simp only [hc (Nc + k) (by omega), hc Nc (by omega)]

theorem stab_ccanChildren1_of {d : Doc} {env : QEnv} {rp : Path} {depth : Nat}
    (hP : ∀ j child, (childNodesAt d rp).get? j = some child →
      StabO (fun m => ATv1.ccanPiece m d env rp depth j child)) :
    ∀ idxs, StabO (fun m => ATv1.ccanChildren m d env rp depth idxs) := by
  intro idxs
  induction idxs with
  | nil =>
    refine ⟨1, .ok "", ?_⟩
    intro m hm
    obtain ⟨k, rfl⟩ := Nat.exists_eq_add_of_le hm
    rw [show 1 + k = k + 1 by omega]
    simp only [ATv1.ccanChildren]
  | cons j rest ih =>
    obtain ⟨Nr, vr, hr⟩ := ih
    cases hget : (childNodesAt d rp).get? j with
    | none =>
      refine ⟨Nr + 1, vr, ?_⟩
      intro m hm
      obtain ⟨k, rfl⟩ := Nat.exists_eq_add_of_le hm
      rw [show Nr + 1 + k = (Nr + k) + 1 by omega]
      simp only [ATv1.ccanChildren, hget, hr (Nr + k) (by omega)]
    | some child =>
      obtain ⟨Np, vp, hp⟩ := hP j child hget
      refine stabO_of_key (Np + Nr + 1) ?_ ?_
      · show ∃ s,
          ATv1.ccanChildren (Np + Nr + 1) d env rp depth (j :: rest) = some s
        simp only [ATv1.ccanChildren, hget]
        simp only [hp (Np + Nr) (by omega), hr (Np + Nr) (by omega)]
        repeat' split
        all_goals first
          | exact ⟨_, rfl⟩
          | simp_all
      · intro m hm
        show ATv1.ccanChildren m d env rp depth (j :: rest) =
          ATv1.ccanChildren (Np + Nr + 1) d env rp depth (j :: rest)
        obtain ⟨k, rfl⟩ := Nat.exists_eq_add_of_le hm
        rw [show Np + Nr + 1 + k = (Np + Nr + k) + 1 by omega]
        simp only [ATv1.ccanChildren, hget]
        simp only [hp (Np + Nr + k) (by omega), hp (Np + Nr) (by omega),
          hr (Np + Nr + k) (by omega), hr (Np + Nr) (by omega)]

theorem stab_ccan1_of {d : Doc} {env : QEnv} {rp : Path} {depth : Nat}
    (hCh : StabO (fun m => ATv1.ccanChildren m d env rp depth
      (List.range (childNodesAt d rp).length))) :
    StabO (fun m => ATv1.computeChildAccessibleName m d env rp depth) := by
  obtain ⟨Nc, vc, hc⟩ := hCh
  refine stabO_of_key (Nc + 1) ?_ ?_
  · show ∃ s, ATv1.computeChildAccessibleName (Nc + 1) d env rp depth = some s
    simp only [ATv1.computeChildAccessibleName]
    simp only [hc Nc (Nat.le_refl _)]
    repeat' split
    all_goals first
      | exact ⟨_, rfl⟩
      | simp_all
  · intro m hm
    show ATv1.computeChildAccessibleName m d env rp depth =
      ATv1.computeChildAccessibleName (Nc + 1) d env rp depth
    obtain ⟨k, rfl⟩ := Nat.exists_eq_add_of_le hm
    rw [show Nc + 1 + k = (Nc + k) + 1 by omega]
    simp only [ATv1.computeChildAccessibleName]
    simp only [hc (Nc + k) (by omega), hc Nc (by omega)]

theorem stab1_below (d : Doc) (env : QEnv) :
    ∀ n rp, pathMeasure d rp ≤ n → ∀ depth,
      StabO (fun m => ATv1.computeChildAccessibleName m d env rp depth) := by
  intro n
  induction n with
  | zero =>
    intro rp h
    exact absurd h (by have := pathMeasure_pos d rp; omega)
  | succ n ih =>
    intro rp hpm depth
    refine stab_ccan1_of (stab_ccanChildren1_of ?_ _)
    intro j child hget
    have hlt := pathMeasure_child_lt hget
    exact stab_ccanPiece1_of (ih (j :: rp) (by omega) (depth + 1))

theorem stab1_ccan (d : Doc) (env : QEnv) (rp : Path) (depth : Nat) :
    StabO (fun m => ATv1.computeChildAccessibleName m d env rp depth) :=
  stab1_below d env (pathMeasure d rp) rp (Nat.le_refl _) depth

theorem stab_grsn1 (d : Doc) (env : QEnv) (rp : Path) :
    StabO (fun m => ATv1.getRoleSpecificName m d env rp) := by
  obtain ⟨Nc, vc, hc⟩ := stab1_ccan d env rp 0
  refine stabO_of_key (Nc + 1) ?_ ?_
  · show ∃ s, ATv1.getRoleSpecificName (Nc + 1) d env rp = some s
    simp only [ATv1.getRoleSpecificName]
    simp only [hc Nc (Nat.le_refl _), Option.map_some']
    repeat' split
    all_goals first
      | exact ⟨_, rfl⟩
      | simp_all
  · intro m hm
    show ATv1.getRoleSpecificName m d env rp =
      ATv1.getRoleSpecificName (Nc + 1) d env rp
    obtain ⟨k, rfl⟩ := Nat.exists_eq_add_of_le hm
    rw [show Nc + 1 + k = (Nc + k) + 1 by omega]
    simp only [ATv1.getRoleSpecificName]
    simp only [hc (Nc + k) (by omega), hc Nc (by omega)]

theorem stab_nta1 (d : Doc) (env : QEnv) (rp : Path) :
    StabO (fun m => ATv1.nativeTextAlternative m d env rp) := by
  obtain ⟨Ng, vg, hg⟩ := stab_grsn1 d env rp
  obtain ⟨Nc, vc, hc⟩ := stab1_ccan d env rp 0
  refine stabO_of_key (Ng + Nc + 1) ?_ ?_
  · show ∃ s, ATv1.nativeTextAlternative (Ng + Nc + 1) d env rp = some s
    simp only [ATv1.nativeTextAlternative]
    simp only [hg (Ng + Nc) (by omega), hc (Ng + Nc) (by omega),
      Option.map_some']
    repeat' split
    all_goals first
      | exact ⟨_, rfl⟩
      | simp_all
  · intro m hm
    show ATv1.nativeTextAlternative m d env rp =
      ATv1.nativeTextAlternative (Ng + Nc + 1) d env rp
    obtain ⟨k, rfl⟩ := Nat.exists_eq_add_of_le hm
    rw [show Ng + Nc + 1 + k = (Ng + Nc + k) + 1 by omega]
    simp only [ATv1.nativeTextAlternative]
    simp only [hg (Ng + Nc + k) (by omega), hg (Ng + Nc) (by omega),
      hc (Ng + Nc + k) (by omega), hc (Ng + Nc) (by omega)]

theorem stab_alb1_true (d : Doc) (env : QEnv) (rp : Path) :
    StabO (fun m => ATv1.arialabelledbyText m d env rp true) := by
  refine ⟨1, "", ?_⟩
  intro m hm
  obtain ⟨k, rfl⟩ := Nat.exists_eq_add_of_le hm
  rw [show 1 + k = k + 1 by omega]
  cases hnode : nodeAt d rp with
  | none => simp only [ATv1.arialabelledbyText, hnode]
  | some el =>
    simp only [ATv1.arialabelledbyText, hnode, Bool.true_or]
    rw [if_pos trivial]

theorem stab_gatTrue1 (d : Doc) (env : QEnv) (rp : Path) :
    StabO (fun m => ATv1.getAccessibleText m d env rp true) := by
  obtain ⟨Na, va, ha⟩ := stab_alb1_true d env rp
  obtain ⟨Nn, vn, hn⟩ := stab_nta1 d env rp
  refine stabO_of_key (Na + Nn + 1) ?_ ?_
  · show ∃ s, ATv1.getAccessibleText (Na + Nn + 1) d env rp true = some s
    simp only [ATv1.getAccessibleText]
    simp only [ha (Na + Nn) (by omega), hn (Na + Nn) (by omega)]
    repeat' split
    all_goals first
      | exact ⟨_, rfl⟩
      | simp_all
  · intro m hm
    show ATv1.getAccessibleText m d env rp true =
      ATv1.getAccessibleText (Na + Nn + 1) d env rp true
    obtain ⟨k, rfl⟩ := Nat.exists_eq_add_of_le hm
    rw [show Na + Nn + 1 + k = (Na + Nn + k) + 1 by omega]
    simp only [ATv1.getAccessibleText]
    simp only [ha (Na + Nn + k) (by omega), ha (Na + Nn) (by omega),
      hn (Na + Nn + k) (by omega), hn (Na + Nn) (by omega)]

theorem stab_albRefs1 (d : Doc) (env : QEnv) :
    ∀ refs, StabO (fun m => ATv1.albRefs m d env refs) := by
  intro refs
  induction refs with
  | nil =>
    refine ⟨1, [], ?_⟩
    intro m hm
    obtain ⟨k, rfl⟩ := Nat.exists_eq_add_of_le hm
    rw [show 1 + k = k + 1 by omega]
    simp only [ATv1.albRefs]
  | cons q rest ih =>
    obtain ⟨Nr, vr, hr⟩ := ih
    obtain ⟨Ng, vg, hg⟩ := stab_gatTrue1 d env q
    refine ⟨Ng + Nr + 1, trimS vg :: vr, ?_⟩
    intro m hm
    obtain ⟨k, rfl⟩ := Nat.exists_eq_add_of_le hm
    rw [show Ng + Nr + 1 + k = (Ng + Nr + k) + 1 by omega]
    simp only [ATv1.albRefs, hg (Ng + Nr + k) (by omega),
      hr (Ng + Nr + k) (by omega)]

theorem stab_alb1 (d : Doc) (env : QEnv) (rp : Path) (ctx : Bool) :
    StabO (fun m => ATv1.arialabelledbyText m d env rp ctx) := by
  cases hnode : nodeAt d rp with
  | none =>
    refine ⟨1, "", ?_⟩
    intro m hm
    obtain ⟨k, rfl⟩ := Nat.exists_eq_add_of_le hm
    rw [show 1 + k = k + 1 by omega]
    simp only [ATv1.arialabelledbyText, hnode]
  | some el =>
    obtain ⟨Na, va, ha⟩ := stab_albRefs1 d env
      (albReferenced d env (el.getAttrD "aria-labelledby"))
    refine stabO_of_key (Na + 1) ?_ ?_
    · show ∃ s, ATv1.arialabelledbyText (Na + 1) d env rp ctx = some s
      simp only [ATv1.arialabelledbyText, hnode]
      simp only [ha Na (Nat.le_refl _)]
      repeat' split
      all_goals exact ⟨_, rfl⟩
    · intro m hm
      show ATv1.arialabelledbyText m d env rp ctx =
        ATv1.arialabelledbyText (Na + 1) d env rp ctx
      obtain ⟨k, rfl⟩ := Nat.exists_eq_add_of_le hm
      rw [show Na + 1 + k = (Na + k) + 1 by omega]
      simp only [ATv1.arialabelledbyText, hnode]
      simp only [ha (Na + k) (by omega), ha Na (by omega)]

theorem stab_gat1 (d : Doc) (env : QEnv) (rp : Path) (ctx : Bool) :
    StabO (fun m => ATv1.getAccessibleText m d env rp ctx) := by
  obtain ⟨Na, va, ha⟩ := stab_alb1 d env rp ctx
  obtain ⟨Nn, vn, hn⟩ := stab_nta1 d env rp
  refine stabO_of_key (Na + Nn + 1) ?_ ?_
  · show ∃ s, ATv1.getAccessibleText (Na + Nn + 1) d env rp ctx = some s
    simp only [ATv1.getAccessibleText]
    simp only [ha (Na + Nn) (by omega), hn (Na + Nn) (by omega)]
    repeat' split
    all_goals first
      | exact ⟨_, rfl⟩
      | simp_all
  · intro m hm
    show ATv1.getAccessibleText m d env rp ctx =
      ATv1.getAccessibleText (Na + Nn + 1) d env rp ctx
    obtain ⟨k, rfl⟩ := Nat.exists_eq_add_of_le hm
    rw [show Na + Nn + 1 + k = (Na + Nn + k) + 1 by omega]
    simp only [ATv1.getAccessibleText]
    simp only [ha (Na + Nn + k) (by omega), ha (Na + Nn) (by omega),
      hn (Na + Nn + k) (by omega), hn (Na + Nn) (by omega)]

/-- Claim C10: for every finite DOM tree (document), engine, element path
and labelledby-context flag, accessible-name resolution terminates — in
the fueled embedding, from some fuel on each variant resolver returns
one fixed defined value, even when elements reference each other
cyclically through aria-labelledby.  The proof follows the claimed
argument: labelledby-reference and child-content resolution re-enter
getAccessibleText with the context flag set, which makes labelledby
resolution unreachable on re-entry, and all remaining recursion descends
strictly into child subtrees of the finite tree (strong induction on the
subtree measure), with the child walk capped at depth 2 per entry. -/
theorem c10_resolution_terminates (d : Doc) (env : QEnv) (rp : Path)
    (ctx : Bool) :
    (∃ N s, ∀ m, N ≤ m → ATv2.getAccessibleText m d env rp ctx = some s) ∧
    (∃ N s, ∀ m, N ≤ m → ATv1.getAccessibleText m d env rp ctx = some s) :=
  ⟨stab_gat2 d env rp ctx, stab_gat1 d env rp ctx⟩

/-- Witness for C10: on the concrete labelledby fixture both variant
resolvers stabilize. -/
theorem c10_resolution_terminates_witness :
    (∃ N s, ∀ m, N ≤ m →
      ATv2.getAccessibleText m exLbl qe0 [1, 0, 0] false = some s) ∧
    (∃ N s, ∀ m, N ≤ m →
      ATv1.getAccessibleText m exLbl qe0 [1, 0, 0] false = some s) :=
  c10_resolution_terminates exLbl qe0 [1, 0, 0] false

end A11y
